import Mathlib

/-!
Shallow embedding of `src/bin/server/server.rs` (the tick-database server):
the line parser, the per-connection `Store`/`State` data model, and the
command dispatcher `gen_response`, together with theorems settling the
specification claims.

Modelling conventions:
* Rust `u64`/`u32`/`i32` are `Nat`/`Int` with explicit bounds and wrap-around
  where the source converts between widths (`size as i32`, `count as usize`).
* Rust `f32` fields (`price`, `size`) are modelled exactly as signed decimal
  numbers (`F32`: integer mantissa plus count of fractional digits).  Every
  claim about these fields concerns only parse success and the sign of the
  parsed value, never rounding, so the exact-decimal model is faithful:
  a decimal digit string and its `f32` rounding always have the same sign,
  and parse success of the buffered text is grammar-driven.
* A Rust `panic!` (the `IMPOSSIBLE` match arm, `unwrap`/`expect` on a missing
  key, an out-of-bounds slice `v[..n]`, `% 0`) is modelled by `Option.none` /
  the dedicated `PRes.imposs` constructor; `None`-style recoverable parse
  failure is `PRes.bad`.
* The external `dtf` tick-file primitives (`encode`, `append`, `decode`,
  `get_size`, `write_batches`, `update_vec_to_json`) are not part of the
  source under verification; they are modelled from the spec's stated
  contract (see the doc comments starting `Modelled from the spec`).
-/

/-- Exact signed decimal number standing for a Rust `f32` value that was
parsed from a digit/dot string (or the `-0.1` sentinel): the represented
value is `mant / 10 ^ fexp`.  Only sign and construction identity matter to
the claims, so no float rounding is modelled. -/
structure F32 where
  mant : Int
  fexp : Nat
deriving DecidableEq

/-- The value `-0.1` used by `parse_line` to initialise `price` and `size`. -/
def F32.negPointOne : F32 := ⟨-1, 1⟩

/-- The comparison `x < 0.0` on the exact-decimal model: the sign is the sign of the
mantissa (the denominator `10 ^ fexp` is positive). -/
def F32.isNeg (x : F32) : Bool := x.mant < 0

/-- One market event, mirroring `dtf::Update` as used by the server. -/
structure Update where
  ts : Nat
  seq : Nat
  is_trade : Bool
  is_bid : Bool
  price : F32
  size : F32
deriving DecidableEq

/-- Numeric value of a digit string, most significant digit first. -/
def natOfDigits (l : List Char) : Nat :=
  l.foldl (fun a c => a * 10 + (c.toNat - '0'.toNat)) 0

/-- Rust `buf.parse::<uN>()` for an unsigned type with `bound = 2 ^ N`:
succeeds exactly on a nonempty all-digit string whose value fits. -/
def natParseB (bound : Nat) (l : List Char) : Option Nat :=
  if l ≠ [] ∧ l.all Char.isDigit ∧ natOfDigits l < bound then
    some (natOfDigits l)
  else none

/-- Rust `buf.parse::<u64>()`. -/
def natParse64 : List Char → Option Nat := natParseB (2 ^ 64)

/-- Rust `buf.parse::<u32>()`. -/
def natParse32 : List Char → Option Nat := natParseB (2 ^ 32)

/-- Number of fractional digits: the characters after the first `'.'`. -/
def fracLen (l : List Char) : Nat := ((l.dropWhile (· ≠ '.')).drop 1).length

/-- Rust `buf.parse::<f32>()` restricted to the strings the parser's buffer can
hold (digits and dots): Rust's float grammar accepts them exactly when there
is at most one dot and at least one digit (`"1."`, `".5"` are accepted,
`""`, `"."`, `"1.2.3"` are rejected); overflow yields infinity, not an
error, so no bound is imposed.  The value is returned exactly. -/
def ratParse (l : List Char) : Option F32 :=
  if l.all (fun c => c.isDigit || c = '.') ∧ l.count '.' ≤ 1 ∧ l.any Char.isDigit then
    some ⟨(natOfDigits (l.filter Char.isDigit) : Int), fracLen l⟩
  else none

/-- The mutable locals of `parse_line`'s character loop. -/
structure LoopSt where
  u : Update
  buf : List Char
  count : Nat
  mcb : Bool
deriving DecidableEq

/-- Result of a fallible computation that can also `panic!`:
`bad` is Rust's `return None`, `imposs` is a reached `panic!`. -/
inductive PRes (α : Type) where
  | ok : α → PRes α
  | bad : PRes α
  | imposs : PRes α
deriving DecidableEq

/-- Effect of one non-delimiter character on the loop state
(the `'.'`/digit/`'t'`/`'f'` arms of the loop in `parse_line`). -/
def absorbChar (c : Char) (st : LoopSt) : LoopSt :=
  if c = '.' ∧ st.count = 0 then st
  else if c = '.' then { st with buf := st.buf ++ ['.'] }
  else if c.isDigit then { st with buf := st.buf ++ [c] }
  else if c = 't' ∨ c = 'f' then { st with mcb := c = 't' }
  else st

/-- The `','`/`';'` arm of the loop: parse the accumulated buffer according
to the field counter, then increment the counter and clear the buffer.
A seventh delimiter reaches the `panic!("IMPOSSIBLE")` arm. -/
def commitF (st : LoopSt) : PRes LoopSt :=
  match st.count with
  | 0 => match natParse64 st.buf with
         | some n => .ok { st with u := { st.u with ts := n }, count := 1, buf := [] }
         | none => .bad
  | 1 => match natParse32 st.buf with
         | some n => .ok { st with u := { st.u with seq := n }, count := 2, buf := [] }
         | none => .bad
  | 2 => .ok { st with u := { st.u with is_trade := st.mcb }, count := 3, buf := [] }
  | 3 => .ok { st with u := { st.u with is_bid := st.mcb }, count := 4, buf := [] }
  | 4 => match ratParse st.buf with
         | some p => .ok { st with u := { st.u with price := p }, count := 5, buf := [] }
         | none => .bad
  | 5 => match ratParse st.buf with
         | some p => .ok { st with u := { st.u with size := p }, count := 6, buf := [] }
         | none => .bad
  | _ => .imposs

/-- One character of the loop body. -/
def stepChar (st : LoopSt) (c : Char) : PRes LoopSt :=
  if c = ',' ∨ c = ';' then commitF st else .ok (absorbChar c st)

/-- The whole character loop. -/
def runChars (st : LoopSt) : List Char → PRes LoopSt
  | [] => .ok st
  | c :: cs =>
    match stepChar st c with
    | .ok st' => runChars st' cs
    | .bad => .bad
    | .imposs => .imposs

/-- Initial loop state of `parse_line`. -/
def initSt : LoopSt :=
  { u := { ts := 0, seq := 0, is_trade := false, is_bid := false,
           price := F32.negPointOne, size := F32.negPointOne },
    buf := [], count := 0, mcb := false }

/-- The function `parse_line`, the line parser of `server.rs` (on the character list of
its input).  `bad` models `None`, `imposs` models the reachable
`panic!("IMPOSSIBLE")`. -/
def parse_line (s : List Char) : PRes Update :=
  match runChars initSt s with
  | .ok st => if st.u.price.isNeg ∨ st.u.size.isNeg then .bad else .ok st.u
  | .bad => .bad
  | .imposs => .imposs

/-! ## Data model: stores, state, and the modelled file system -/

/-- Server configuration (`Settings` in the source). -/
structure Settings where
  autoflush : Bool
  dtf_folder : List Char
  flush_interval : Nat
deriving DecidableEq

/-- One named collection of updates (`Store` in the source). -/
structure Store where
  name : List Char
  folder : List Char
  in_memory : Bool
  size : Nat
  v : List Update
deriving DecidableEq

/-- Per-connection state (`State` in the source).  The `HashMap` of stores
is modelled as an association list with lookup-first / replace-first
semantics (a faithful finite-map model; iteration order of the hash map is
unspecified in the source and no claim depends on it). -/
structure State where
  is_adding : Bool
  store : List (List Char × Store)
  current_store_name : List Char
  settings : Settings
deriving DecidableEq

/-- The file system: a map from file name to the updates stored in the
`.dtf` file.  Modelled from the spec: the on-disk format is owned by the
external tick-file library; only the update sequence and its header count
are observable through the primitives the server consumes. -/
abbrev FS := List (List Char × List Update)

def lookupA {β : Type} (l : List (List Char × β)) (k : List Char) : Option β :=
  match l with
  | [] => none
  | p :: r => if p.1 = k then some p.2 else lookupA r k

/-- Replace the value at the first occurrence of `k` (no-op when absent). -/
def updateA {β : Type} (l : List (List Char × β)) (k : List Char) (f : β → β) :
    List (List Char × β) :=
  match l with
  | [] => []
  | p :: r => if p.1 = k then (p.1, f p.2) :: r else p :: updateA r k f

/-- Rust `HashMap::insert`: overwrite an existing binding, else append. -/
def insertA {β : Type} (l : List (List Char × β)) (k : List Char) (v : β) :
    List (List Char × β) :=
  if (lookupA l k).isSome then updateA l k (fun _ => v) else l ++ [(k, v)]

/-- The file name `{folder}/{name}.dtf`. -/
def fnameOf (folder name : List Char) : List Char :=
  folder ++ "/".data ++ name ++ ".dtf".data

/-- Largest timestamp in a file. -/
def maxTs (l : List Update) : Nat := l.foldl (fun a u => max a u.ts) 0

/-- Modelled from the spec: `dtf::get_size` reads the header count of the
file, which equals the number of updates it holds (absent files are
modelled as count 0; the source only reaches this call on files it has
just flushed, or via `CLEAR`, whose claims never depend on the value). -/
def getSizeFS (fs : FS) (fn : List Char) : Nat :=
  ((lookupA fs fn).getD []).length

/-- Rust `Store::add`: push the update, increment `size`. -/
def Store.add (s : Store) (up : Update) : Store :=
  { s with size := s.size + 1, v := s.v ++ [up] }

/-- Rust `Store::flush`.  Modelled from the spec: `dtf::encode` writes the buffer
as a new file; `dtf::append` appends only the updates strictly newer than
the file's current maximum timestamp.  The buffer is not cleared. -/
def Store.flushFS (s : Store) (fs : FS) : FS :=
  match lookupA fs (fnameOf s.folder s.name) with
  | some old => insertA fs (fnameOf s.folder s.name)
      (old ++ s.v.filter (fun u => maxTs old < u.ts))
  | none => insertA fs (fnameOf s.folder s.name) s.v

/-- Rust `Store::load`.  Modelled from the spec: `dtf::decode` returns the whole
update sequence of the file. -/
def Store.loadFS (s : Store) (fs : FS) : Store :=
  match lookupA fs (fnameOf s.folder s.name) with
  | some file => if !s.in_memory then { s with v := file, size := file.length, in_memory := true }
                 else s
  | none => s

/-- Rust `Store::load_size_from_file`. -/
def Store.load_size_from_file (s : Store) (fs : FS) : Store :=
  { s with size := getSizeFS fs (fnameOf s.folder s.name) }

/-- Rust `Store::clear`. -/
def Store.clear (s : Store) (fs : FS) : Store :=
  { s with v := [], in_memory := false,
           size := getSizeFS fs (fnameOf s.folder s.name) }

/-- Rust `State::insert` (append to a named store); `none` models the
`expect("KEY IS NOT IN HASHMAP")` panic on an unknown name. -/
def State.insertS (st : State) (up : Update) (n : List Char) : Option State :=
  match lookupA st.store n with
  | some _ => some { st with store := updateA st.store n (fun s => s.add up) }
  | none => none

/-- Rust `State::add` (append to the current store). -/
def State.addS (st : State) (up : Update) : Option State :=
  st.insertS up st.current_store_name

/-- Rust `State::autoflush`: after a single-update insert, flush the current
store and re-read its size from the file header whenever autoflush is
enabled and `size % flush_interval == 0`.  `none` models the panics on a
missing current store and on `% 0`. -/
def State.autoflushS (st : State) (fs : FS) : Option (State × FS) :=
  match lookupA st.store st.current_store_name with
  | none => none
  | some cs =>
    if st.settings.autoflush then
      if st.settings.flush_interval = 0 then none
      else if cs.size % st.settings.flush_interval = 0 then
        some ({ st with store := updateA st.store st.current_store_name
                          (fun s => s.load_size_from_file (cs.flushFS fs)) }, cs.flushFS fs)
      else some (st, fs)
    else some (st, fs)

/-- Rust `u64 as i32`: truncate to the low 32 bits, then reinterpret signed. -/
def i32OfU64 (n : Nat) : Int :=
  if n % 2 ^ 32 < 2 ^ 31 then ((n % 2 ^ 32 : Nat) : Int)
  else ((n % 2 ^ 32 : Nat) : Int) - 2 ^ 32

/-- Rust `i32 as usize`: sign-extend to 64 bits, reinterpret unsigned. -/
def usizeOfI32 (c : Int) : Nat := (c % (2 ^ 64 : Int)).toNat

/-- Rust `State::get`.  Outer `none` models a panic (missing current store, or
the out-of-bounds slice `v[..count as usize]`); `some none` is the
in-protocol failure; `some (some b)` is the binary payload, modelled from
the spec as the update sequence that `dtf::write_batches` renders. -/
def State.getS (st : State) (count : Int) : Option (Option (List Update)) :=
  match lookupA st.store st.current_store_name with
  | none => none
  | some cs =>
    if i32OfU64 cs.size < count ∨ cs.size = 0 then some none
    else if count = -1 then some (some cs.v)
    else if usizeOfI32 count ≤ cs.v.length then some (some (cs.v.take (usizeOfI32 count)))
    else none

/-! ## Response type and string helpers -/

/-- The `(Option<String>, Option<Vec<u8>>, Option<String>)` triple returned
by `gen_response`: text response, binary response, error message. -/
structure Resp where
  text : Option (List Char)
  bin : Option (List Update)
  err : Option (List Char)
deriving DecidableEq

def respText (t : List Char) : Resp := ⟨some t, none, none⟩

def respBin (b : List Update) : Resp := ⟨none, some b, none⟩

def respErr (e : List Char) : Resp := ⟨none, none, some e⟩

/-- The status byte written by `handle_client` for a response triple:
`0x01` for a text or binary success, `0x00` for an error; `none` models the
`panic!("IMPOSSIBLE")` arm for triples no branch constructs. -/
def statusByte (r : Resp) : Option Nat :=
  match r.text, r.bin, r.err with
  | some _, none, _ => some 1
  | none, some _, _ => some 1
  | none, none, some _ => some 0
  | _, _, _ => none

def startsWithL : List Char → List Char → Bool
  | [], _ => true
  | _ :: _, [] => false
  | p :: ps, c :: cs => p = c && startsWithL ps cs

/-- Index of the first occurrence of `pat` as a contiguous substring
(`String::match_indices(pat).next()`), if any. -/
def firstIdxOf (pat : List Char) : List Char → Option Nat
  | [] => if startsWithL pat [] then some 0 else none
  | c :: cs =>
    if startsWithL pat (c :: cs) then some 0
    else (firstIdxOf pat cs).map (· + 1)

/-- Rust `String::contains(pat)`. -/
def hasInfL (pat s : List Char) : Bool := (firstIdxOf pat s).isSome

/-- Rust `str::parse::<i32>()`: optional sign, then decimal digits, bounds
`[-2^31, 2^31)`. -/
def parseI32 (l : List Char) : Option Int :=
  if l.take 1 = ['-'] then
    if l.drop 1 ≠ [] ∧ (l.drop 1).all Char.isDigit ∧ natOfDigits (l.drop 1) ≤ 2 ^ 31 then
      some (-(natOfDigits (l.drop 1) : Int))
    else none
  else if l.take 1 = ['+'] then
    if l.drop 1 ≠ [] ∧ (l.drop 1).all Char.isDigit ∧ natOfDigits (l.drop 1) < 2 ^ 31 then
      some ((natOfDigits (l.drop 1) : Int))
    else none
  else
    if l ≠ [] ∧ l.all Char.isDigit ∧ natOfDigits l < 2 ^ 31 then
      some ((natOfDigits l : Int))
    else none

def natRepr (n : Nat) : List Char := (Nat.repr n).data

def intRepr (i : Int) : List Char := (Int.repr i).data

def boolRepr (b : Bool) : List Char := if b then "true".data else "false".data

/-- Modelled from the spec: `dtf::update_vec_to_json` is an external pure
formatter whose output text is deliberately out of the spec's scope; no
claim depends on it, so it is modelled as the empty rendering. -/
def updateVecToJson (_ : List Update) : List Char := []

def joinSep (sep : List Char) : List (List Char) → List Char
  | [] => []
  | [x] => x
  | x :: y :: r => x ++ sep ++ joinSep sep (y :: r)

/-- The `INFO` line: one JSON object per store. -/
def infoLine (stores : List (List Char × Store)) : List Char :=
  "[".data ++
    joinSep ", ".data (stores.map (fun p =>
      "\x7b\"name\": \"".data ++ p.2.name ++ "\", \"in_memory\": ".data ++
        boolRepr p.2.in_memory ++ ", \"count\": ".data ++ natRepr p.2.size ++ "\x7d".data)) ++
  "]\n".data

def HELP_STR : List Char :=
  ("PING, INFO, USE [db], CREATE [db],\n" ++
   "ADD [ts],[seq],[is_trade],[is_bid],[price],[size];\n" ++
   "BULKADD ...; DDAKLUB\n" ++
   "FLUSH, FLUSHALL, GETALL, GET [count], CLEAR\n").data

/-! ## The command dispatcher `gen_response` -/

/-- The store a `CREATE` inserts: empty buffer, size 0, not in memory. -/
def freshStore (name folder : List Char) : Store := ⟨name, folder, false, 0, []⟩

/-- The `ADD …` branch of the catch-all arm: `ADD <line>` and
`ADD <line> INTO <name>`.  The `INTO` variant slices the data portion as
`string[3..(index_of(" INTO ") - 2)]` and the target name as
`string[(index + 6)..]`, exactly as the source does (the source indexes
bytes; on the ASCII commands at issue byte and character indices
coincide); an occurrence of `" INTO "` before index 5 makes the Rust
slice panic (`none`). -/
def addCmd (s : List Char) (st : State) (fs : FS) : Option (Resp × State × FS) :=
  match firstIdxOf " INTO ".data s with
  | some idx =>
    if idx < 5 then none
    else
      match parse_line ((s.take (idx - 2)).drop 3) with
      | .ok up =>
        match st.insertS up (s.drop (idx + 6)) with
        | none => none
        | some st1 => (st1.autoflushS fs).map (fun p => (respText "1\n".data, p.1, p.2))
      | .bad => some (respErr "Parse ADD INTO".data, st, fs)
      | .imposs => none
  | none =>
    match parse_line (s.drop 3) with
    | .ok up =>
      match st.addS up with
      | none => none
      | some st1 => (st1.autoflushS fs).map (fun p => (respText "1\n".data, p.1, p.2))
    | .bad => some (respErr "Parse ADD".data, st, fs)
    | .imposs => none

/-- The `CREATE <name>` branch: unconditionally insert a fresh store under
the name, overwriting any existing binding. -/
def createCmd (s : List Char) (st : State) (fs : FS) : Option (Resp × State × FS) :=
  some (respText ("Created DB `".data ++ s.drop 7 ++ "`.\n".data),
    { st with store :=
        insertA st.store (s.drop 7) ⟨s.drop 7, st.settings.dtf_folder, false, 0, []⟩ }, fs)

/-- The `USE <name>` branch: switch the current store and `load()` it. -/
def useCmd (s : List Char) (st : State) (fs : FS) : Option (Resp × State × FS) :=
  if (lookupA st.store (s.drop 4)).isSome then
    some (respText ("SWITCHED TO DB `".data ++ s.drop 4 ++ "`.\n".data),
      { st with current_store_name := s.drop 4,
                store := updateA st.store (s.drop 4) (fun s => s.loadFS fs) }, fs)
  else
    some (respErr ("State does not contain ".data ++ s.drop 4), st, fs)

/-- The `GET <n>` / `GET <n> AS JSON` branch.  The count is
`string[4..].split(" ")[0].parse::<i32>().unwrap()` (panic on failure);
the JSON variant uses `size <= count` where the binary variant uses
`size < count`, and both slice `v[..count as usize]` (panic when out of
bounds). -/
def getCmd (s : List Char) (st : State) (fs : FS) : Option (Resp × State × FS) :=
  match parseI32 ((s.drop 4).takeWhile (· ≠ ' ')) with
  | none => none
  | some count =>
    if hasInfL "AS JSON".data s then
      match lookupA st.store st.current_store_name with
      | none => none
      | some cs =>
        if i32OfU64 cs.size ≤ count ∨ cs.size = 0 then
          some (respErr "Requested too many".data, st, fs)
        else if usizeOfI32 count ≤ cs.v.length then
          some (respText ("[".data ++ updateVecToJson (cs.v.take (usizeOfI32 count)) ++ "]\n".data),
                st, fs)
        else none
    else
      match st.getS count with
      | none => none
      | some none => some (respErr ("Failed to get ".data ++ intRepr count ++ ".".data), st, fs)
      | some (some b) => some (respBin b, st, fs)

/-- The catch-all arm of the dispatcher: bulk-add mode first, then the
prefix-matched commands, then `Unsupported command.`. -/
def catchAll (s : List Char) (st : State) (fs : FS) : Option (Resp × State × FS) :=
  if st.is_adding then
    match parse_line s with
    | .ok up =>
      match st.addS up with
      | none => none
      | some st1 => (st1.autoflushS fs).map (fun p => (respText [], p.1, p.2))
    | .bad => some (respErr "Unable to parse line in BULKALL".data, st, fs)
    | .imposs => none
  else if startsWithL "ADD ".data s then addCmd s st fs
  else if startsWithL "CREATE ".data s then createCmd s st fs
  else if startsWithL "USE ".data s then useCmd s st fs
  else if startsWithL "GET ".data s then getCmd s st fs
  else some (respErr "Unsupported command.".data, st, fs)

/-- The literal command arms of the `match` in `gen_response`, in source
order; `other` is the catch-all `_` arm. -/
inductive CmdLit where
  | empty | ping | help | info | bulkadd | ddaklub | getAllJson | getAll
  | clearCur | clearAll | flushCur | flushAll | other
deriving DecidableEq

/-- Which literal arm of the `match string` in `gen_response` applies. -/
def classify (s : List Char) : CmdLit :=
  if s = [] then .empty
  else if s = "PING".data then .ping
  else if s = "HELP".data then .help
  else if s = "INFO".data then .info
  else if s = "BULKADD".data then .bulkadd
  else if s = "DDAKLUB".data then .ddaklub
  else if s = "GET ALL AS JSON".data then .getAllJson
  else if s = "GET ALL".data then .getAll
  else if s = "CLEAR".data then .clearCur
  else if s = "CLEAR ALL".data then .clearAll
  else if s = "FLUSH".data then .flushCur
  else if s = "FLUSH ALL".data then .flushAll
  else .other

/-- The dispatcher `gen_response`: dispatch one received command line against the
connection state.  `none` models a worker panic. -/
def genResponse (s : List Char) (st : State) (fs : FS) : Option (Resp × State × FS) :=
  match classify s with
  | .empty => some (respText [], st, fs)
  | .ping => some (respText "PONG.\n".data, st, fs)
  | .help => some (respText HELP_STR, st, fs)
  | .info => some (respText (infoLine st.store), st, fs)
  | .bulkadd => some (respText [], { st with is_adding := true }, fs)
  | .ddaklub => some (respText "1\n".data, { st with is_adding := false }, fs)
  | .getAllJson =>
    match lookupA st.store st.current_store_name with
    | none => none
    | some cs => some (respText ("[".data ++ updateVecToJson cs.v ++ "]\n".data), st, fs)
  | .getAll =>
    match st.getS (-1) with
    | none => none
    | some none => some (respErr "Failed to GET ALL.".data, st, fs)
    | some (some b) => some (respBin b, st, fs)
  | .clearCur =>
    match lookupA st.store st.current_store_name with
    | none => none
    | some _ => some (respText "1\n".data,
        { st with store := updateA st.store st.current_store_name (fun c => c.clear fs) }, fs)
  | .clearAll =>
    some (respText "1\n".data,
      { st with store := st.store.map (fun p => (p.1, p.2.clear fs)) }, fs)
  | .flushCur =>
    match lookupA st.store st.current_store_name with
    | none => none
    | some cs => some (respText "1\n".data, st, cs.flushFS fs)
  | .flushAll =>
    some (respText "1\n".data, st, st.store.foldl (fun acc p => p.2.flushFS acc) fs)
  | .other => catchAll s st fs

/-- The bootstrap `init_state`: fresh connection state with only the `default` store,
which is `in_memory` exactly when no `default.dtf` file exists yet. -/
def init_state (settings : Settings) (fs : FS) : State :=
  { is_adding := false,
    current_store_name := "default".data,
    settings := settings,
    store := [("default".data,
      { name := "default".data, folder := settings.dtf_folder,
        in_memory := (lookupA fs (fnameOf settings.dtf_folder "default".data)).isNone,
        size := 0, v := [] })] }

/-- Execute a sequence of commands, stopping with `none` on a panic. -/
def runCmds : List (List Char) → State → FS → Option (State × FS)
  | [], st, fs => some (st, fs)
  | c :: cs, st, fs =>
    match genResponse c st fs with
    | none => none
    | some (_, st', fs') => runCmds cs st' fs'

/-! ## Field-level view of the parser (for the timestamp claim) -/

/-- Split a character list at the delimiters `','` / `';'` (the delimiter
characters themselves belong to no field).  A line with `k` delimiters has
`k + 1` fields; the last field is the text after the final delimiter. -/
def splitD : List Char → List (List Char)
  | [] => [[]]
  | c :: cs =>
    if c = ',' ∨ c = ';' then [] :: splitD cs
    else
      match splitD cs with
      | [] => [[c]]
      | f :: r => (c :: f) :: r

/-- Absorb a delimiter-free run of characters into the loop state. -/
def absorbF (st : LoopSt) (f : List Char) : LoopSt :=
  f.foldl (fun s c => absorbChar c s) st

@[simp] theorem absorbF_nil (st : LoopSt) : absorbF st [] = st := rfl

/-- The character loop, reorganised field by field: absorb a field, commit
at its delimiter, recurse; the final field is absorbed but never
committed. -/
def fieldsRun (st : LoopSt) : List (List Char) → PRes LoopSt
  | [] => .ok st
  | [f] => .ok (absorbF st f)
  | f :: g :: r =>
    match commitF (absorbF st f) with
    | .ok st' => fieldsRun st' (g :: r)
    | .bad => .bad
    | .imposs => .imposs

/-- Which characters the loop pushes onto the buffer: digits always, a dot
only outside field 0. -/
def keepP (n : Nat) (c : Char) : Bool :=
  c.isDigit || (decide (c = '.') && decide (n ≠ 0))

/-! ## Preservation of the in-memory/size invariant (autoflush disabled) -/

/-- The spec's store invariant: an in-memory store's `size` field equals
its buffer length. -/
def InMemInv (st : State) : Prop :=
  ∀ p ∈ st.store, p.2.in_memory = true → p.2.size = p.2.v.length

/-- Store-level form of the invariant. -/
def SInv (v : Store) : Prop := v.in_memory = true → v.size = v.v.length

/-! ## Concrete states used by the counterexamples and witnesses -/

/-- A single benign update (`1,1,t,t,1,1;`). -/
def updOne : Update := ⟨1, 1, true, true, ⟨1, 0⟩, ⟨1, 0⟩⟩

/-- Autoflush on, every insert. -/
def settingsAF : Settings := ⟨true, "db".data, 1⟩

/-- Autoflush off. -/
def settingsNF : Settings := ⟨false, "db".data, 1⟩

/-- A state with the in-memory `default` store and a `foo` store. -/
def stFooC1 : State :=
  { is_adding := false, current_store_name := "default".data, settings := settingsNF,
    store := [("default".data, ⟨"default".data, "db".data, true, 0, []⟩),
              ("foo".data, ⟨"foo".data, "db".data, false, 0, []⟩)] }

/-- A bootstrap-like store: `size` read from a file header (1) but the
buffer never loaded (`v = []`). -/
def csGap : Store := ⟨"default".data, "db".data, false, 1, []⟩

def stGap : State :=
  { is_adding := false, current_store_name := "default".data, settings := settingsNF,
    store := [("default".data, csGap)] }

/-- A consistent in-memory store holding three updates. -/
def csThree : Store := ⟨"default".data, "db".data, true, 3, [updOne, updOne, updOne]⟩

def stThree : State :=
  { is_adding := false, current_store_name := "default".data, settings := settingsNF,
    store := [("default".data, csThree)] }

/-- The update parsed from `1.0, 1, t, t, -1.0, 2.0;` (the sign of the
price is silently dropped). -/
def updNeg : Update := ⟨10, 1, true, true, ⟨10, 1⟩, ⟨20, 1⟩⟩

/-- State after `ADD 1.0, 1, t, t, -1.0, 2.0;` on a fresh connection. -/
def stC2' : State :=
  { is_adding := false, current_store_name := "default".data, settings := settingsNF,
    store := [("default".data, ⟨"default".data, "db".data, true, 1, [updNeg]⟩)] }

/-- State after `ADD 1,1,t,t,1,1;` on a fresh connection (autoflush off). -/
def stW3 : State :=
  { is_adding := false, current_store_name := "default".data, settings := settingsNF,
    store := [("default".data, ⟨"default".data, "db".data, true, 1, [updOne]⟩)] }

instance instDecInMemInv (st : State) : Decidable (InMemInv st) := by
  unfold InMemInv
  exact List.decidableBAll _ _

/-- The spec's example line and the update it parses to. -/
def exLine : List Char := "1505177459.658, 139010, f, t, 0.0703629, 7.65064249;".data

def exUpd : Update := ⟨1505177459658, 139010, false, true, ⟨703629, 7⟩, ⟨765064249, 8⟩⟩

/-! ## Theorems -/

-- The two unit tests shipped with the source, replayed on the embedding.
example : parse_line "1505177459.658, 139010, f, t, 0.0703629, 7.65064249;".data =
    .ok { ts := 1505177459658, seq := 139010, is_trade := false, is_bid := true,
          price := ⟨703629, 7⟩, size := ⟨765064249, 8⟩ } := by decide

example : parse_line "1505177459.658, 139010,,, f, t, 0.0703629, 7.65064249;".data = .bad := by
  decide

example : parse_line "150517;".data = .bad := by decide

example : parse_line "something;".data = .bad := by decide

-- Sanity checks of the dispatcher on concrete runs.
example : genResponse "PING".data (init_state ⟨false, "db".data, 1⟩ []) [] =
    some (respText "PONG.\n".data, init_state ⟨false, "db".data, 1⟩ [], []) := by decide

example :
    (runCmds ["ADD 1,1,t,t,1,1;".data, "ADD 1,2,t,t,1,1;".data]
        (init_state ⟨true, "db".data, 1⟩ []) []).map
      (fun p => (lookupA p.1.store "default".data).map
        (fun s => (s.in_memory, s.size, s.v.length))) =
    some (some (true, 1, 2)) := by decide

theorem splitD_ne_nil (cs : List Char) : splitD cs ≠ [] := by
  cases cs with
  | nil => simp [splitD]
  | cons c cs =>
    unfold splitD
    split
    · simp
    · cases splitD cs <;> simp

theorem absorbF_cons (st : LoopSt) (c : Char) (f : List Char) :
    absorbF st (c :: f) = absorbF (absorbChar c st) f := rfl

theorem runChars_eq_fieldsRun (cs : List Char) :
    ∀ st, runChars st cs = fieldsRun st (splitD cs) := by
  induction cs with
  | nil => intro st; rfl
  | cons c cs ih =>
    intro st
    by_cases hd : c = ',' ∨ c = ';'
    · obtain ⟨f, r, hfr⟩ : ∃ f r, splitD cs = f :: r := by
        cases h : splitD cs with
        | nil => exact absurd h (splitD_ne_nil cs)
        | cons f r => exact ⟨f, r, rfl⟩
      rw [show splitD (c :: cs) = [] :: splitD cs by simp [splitD, hd], hfr]
      show runChars st (c :: cs) = fieldsRun st ([] :: f :: r)
      simp only [runChars, stepChar, if_pos hd, fieldsRun, absorbF_nil]
      cases hc : commitF st with
      | ok st' => simp only [ih st', hfr]
      | bad => rfl
      | imposs => rfl
    · obtain ⟨f, r, hfr⟩ : ∃ f r, splitD cs = f :: r := by
        cases h : splitD cs with
        | nil => exact absurd h (splitD_ne_nil cs)
        | cons f r => exact ⟨f, r, rfl⟩
      have hsp : splitD (c :: cs) = (c :: f) :: r := by
        unfold splitD
        rw [if_neg hd, hfr]
      rw [hsp]
      have hlhs : runChars st (c :: cs) = runChars (absorbChar c st) cs := by
        simp only [runChars, stepChar, if_neg hd]
      rw [hlhs, ih (absorbChar c st), hfr]
      cases r with
      | nil => simp only [fieldsRun, absorbF_cons]
      | cons g r' => simp only [fieldsRun, absorbF_cons]

theorem absorbChar_count (c : Char) (st : LoopSt) : (absorbChar c st).count = st.count := by
  unfold absorbChar; split_ifs <;> rfl

theorem absorbChar_u (c : Char) (st : LoopSt) : (absorbChar c st).u = st.u := by
  unfold absorbChar; split_ifs <;> rfl

theorem absorbChar_buf (c : Char) (st : LoopSt) :
    (absorbChar c st).buf = st.buf ++ (if keepP st.count c then [c] else []) := by
  by_cases hdot : c = '.'
  · subst hdot
    by_cases h0 : st.count = 0 <;>
      simp [absorbChar, keepP, h0, (by decide : ('.' : Char).isDigit = false)]
  · by_cases hdig : c.isDigit
    · simp [absorbChar, keepP, hdot, hdig]
    · by_cases htf : c = 't' ∨ c = 'f'
      · simp [absorbChar, keepP, hdot, hdig, htf]
      · simp [absorbChar, keepP, hdot, hdig, htf]

theorem absorbF_count (f : List Char) : ∀ st, (absorbF st f).count = st.count := by
  induction f with
  | nil => intro st; rfl
  | cons c f ih => intro st; rw [absorbF_cons, ih, absorbChar_count]

theorem absorbF_u (f : List Char) : ∀ st, (absorbF st f).u = st.u := by
  induction f with
  | nil => intro st; rfl
  | cons c f ih => intro st; rw [absorbF_cons, ih, absorbChar_u]

theorem absorbF_buf (f : List Char) :
    ∀ st, (absorbF st f).buf = st.buf ++ f.filter (keepP st.count) := by
  induction f with
  | nil => intro st; simp
  | cons c f ih =>
    intro st
    rw [absorbF_cons, ih, absorbChar_buf, absorbChar_count, List.filter_cons]
    cases h : keepP st.count c <;> simp [h]

theorem commitF_ok_le {st st' : LoopSt} (h : commitF st = .ok st') :
    st.count ≤ 5 ∧ st'.count = st.count + 1 := by
  unfold commitF at h
  split at h <;>
    first
      | (cases h; exact ⟨by omega, by simp_all⟩)
      | (split at h
         · cases h; exact ⟨by omega, by simp_all⟩
         · cases h)
      | cases h

theorem commitF_ok_size {st st' : LoopSt} (h : commitF st = .ok st') (hc : st.count ≤ 4) :
    st'.u.size = st.u.size := by
  unfold commitF at h
  split at h <;>
    first
      | (cases h; rfl)
      | (split at h
         · cases h; first | rfl | omega
         · cases h)
      | omega
      | cases h

theorem fieldsRun_ok_bound :
    ∀ (fs : List (List Char)) (st st' : LoopSt), fieldsRun st fs = .ok st' →
      st.count ≤ 6 → st.count + (fs.length - 1) ≤ 6 := by
  intro fs
  induction fs with
  | nil => intro st st' _ h6; simpa using h6
  | cons f rest ih =>
    intro st st' h h6
    cases rest with
    | nil => simpa using h6
    | cons g r =>
      rw [fieldsRun] at h
      cases hc : commitF (absorbF st f) with
      | ok st1 =>
        rw [hc] at h
        obtain ⟨hle, hcnt⟩ := commitF_ok_le hc
        rw [absorbF_count] at hle hcnt
        have := ih st1 st' h (by omega)
        simp only [List.length_cons] at this ⊢
        omega
      | bad => rw [hc] at h; cases h
      | imposs => rw [hc] at h; cases h

theorem fieldsRun_ok_size :
    ∀ (fs : List (List Char)) (st st' : LoopSt), fieldsRun st fs = .ok st' →
      st.count + fs.length ≤ 6 → st'.u.size = st.u.size := by
  intro fs
  induction fs with
  | nil => intro st st' h _; cases h; rfl
  | cons f rest ih =>
    intro st st' h h6
    cases rest with
    | nil =>
      rw [fieldsRun] at h
      cases h
      rw [absorbF_u]
    | cons g r =>
      rw [fieldsRun] at h
      cases hc : commitF (absorbF st f) with
      | ok st1 =>
        rw [hc] at h
        obtain ⟨hle, hcnt⟩ := commitF_ok_le hc
        rw [absorbF_count] at hcnt
        have hsz : st1.u.size = st.u.size := by
          rw [commitF_ok_size hc (by rw [absorbF_count]; simp only [List.length_cons] at h6; omega),
              absorbF_u]
        have := ih st1 st' h (by simp only [List.length_cons] at h6 ⊢; omega)
        rw [this, hsz]
      | bad => rw [hc] at h; cases h
      | imposs => rw [hc] at h; cases h

theorem parse_line_ok_elim {s : List Char} {u : Update} (h : parse_line s = .ok u) :
    ∃ stF, runChars initSt s = .ok stF ∧ stF.u = u ∧
      stF.u.price.isNeg = false ∧ stF.u.size.isNeg = false := by
  cases hr : runChars initSt s with
  | ok stF =>
    simp only [parse_line, hr] at h
    by_cases hneg : stF.u.price.isNeg = true ∨ stF.u.size.isNeg = true
    · rw [if_pos hneg] at h; cases h
    · rw [if_neg hneg] at h
      cases h
      push_neg at hneg
      exact ⟨stF, rfl, rfl, by simpa using hneg.1, by simpa using hneg.2⟩
  | bad => simp [parse_line, hr] at h
  | imposs => simp [parse_line, hr] at h

/-- Any line the parser accepts has exactly seven fields (six delimiters):
fewer leave the `size` sentinel `-0.1` in place, more hit the `IMPOSSIBLE`
panic arm. -/
theorem parse_line_ok_seven {s : List Char} {u : Update} (h : parse_line s = .ok u) :
    (splitD s).length = 7 := by
  obtain ⟨stF, hr, hu, hpr, hsz⟩ := parse_line_ok_elim h
  rw [runChars_eq_fieldsRun] at hr
  have hup : (splitD s).length - 1 ≤ 6 := by
    have := fieldsRun_ok_bound (splitD s) initSt stF hr (by simp [initSt])
    simpa [initSt] using this
  by_contra hne
  have hlt : (splitD s).length ≤ 6 := by
    have := splitD_ne_nil s
    have : (splitD s).length ≠ 0 := by simpa [List.length_eq_zero] using this
    omega
  have := fieldsRun_ok_size (splitD s) initSt stF hr (by simp [initSt]; omega)
  rw [this] at hsz
  simp [initSt, F32.negPointOne, F32.isNeg] at hsz

theorem keepP_zero : keepP 0 = Char.isDigit := by
  funext c; simp [keepP]

theorem keepP_succ (n : Nat) (h : n ≠ 0) :
    keepP n = fun c => c.isDigit || decide (c = '.') := by
  funext c; simp [keepP, h]

theorem fieldsRun_single (st : LoopSt) (f : List Char) :
    fieldsRun st [f] = .ok (absorbF st f) := by
  rw [fieldsRun]

theorem fieldsRun_cons_ok {st st1 : LoopSt} {f g : List Char} {r : List (List Char)}
    (hcm : commitF (absorbF st f) = .ok st1) :
    fieldsRun st (f :: g :: r) = fieldsRun st1 (g :: r) := by
  rw [fieldsRun, hcm]

theorem fieldsRun_cons_bad {st : LoopSt} {f g : List Char} {r : List (List Char)}
    (hcm : commitF (absorbF st f) = .bad) :
    fieldsRun st (f :: g :: r) = .bad := by
  rw [fieldsRun, hcm]

theorem commitF_at0 {st : LoopSt} {n : Nat} (h : st.count = 0) (hp : natParse64 st.buf = some n) :
    commitF st = .ok { st with u := { st.u with ts := n }, count := 1, buf := [] } := by
  unfold commitF; rw [h, hp]

theorem commitF_at0_bad {st : LoopSt} (h : st.count = 0) (hp : natParse64 st.buf = none) :
    commitF st = .bad := by
  unfold commitF; rw [h, hp]

theorem commitF_at1 {st : LoopSt} {n : Nat} (h : st.count = 1) (hp : natParse32 st.buf = some n) :
    commitF st = .ok { st with u := { st.u with seq := n }, count := 2, buf := [] } := by
  unfold commitF; rw [h, hp]

theorem commitF_at1_bad {st : LoopSt} (h : st.count = 1) (hp : natParse32 st.buf = none) :
    commitF st = .bad := by
  unfold commitF; rw [h, hp]

theorem commitF_at2 {st : LoopSt} (h : st.count = 2) :
    commitF st = .ok { st with u := { st.u with is_trade := st.mcb }, count := 3, buf := [] } := by
  unfold commitF; rw [h]

theorem commitF_at3 {st : LoopSt} (h : st.count = 3) :
    commitF st = .ok { st with u := { st.u with is_bid := st.mcb }, count := 4, buf := [] } := by
  unfold commitF; rw [h]

theorem commitF_at4 {st : LoopSt} {p : F32} (h : st.count = 4) (hp : ratParse st.buf = some p) :
    commitF st = .ok { st with u := { st.u with price := p }, count := 5, buf := [] } := by
  unfold commitF; rw [h, hp]

theorem commitF_at4_bad {st : LoopSt} (h : st.count = 4) (hp : ratParse st.buf = none) :
    commitF st = .bad := by
  unfold commitF; rw [h, hp]

theorem commitF_at5 {st : LoopSt} {p : F32} (h : st.count = 5) (hp : ratParse st.buf = some p) :
    commitF st = .ok { st with u := { st.u with size := p }, count := 6, buf := [] } := by
  unfold commitF; rw [h, hp]

theorem commitF_at5_bad {st : LoopSt} (h : st.count = 5) (hp : ratParse st.buf = none) :
    commitF st = .bad := by
  unfold commitF; rw [h, hp]

theorem list_len7 {α : Type} {l : List α} (h : l.length = 7) :
    ∃ a b c d e f g, l = [a, b, c, d, e, f, g] := by
  rcases l with _|⟨a,_|⟨b,_|⟨c,_|⟨d,_|⟨e,_|⟨f,_|⟨g,_|⟨x,t⟩⟩⟩⟩⟩⟩⟩⟩ <;> simp_all

theorem fr_step0 {st stF : LoopSt} {f g : List Char} {r : List (List Char)}
    (hcnt : st.count = 0) (hbuf : st.buf = [])
    (hr : fieldsRun st (f :: g :: r) = .ok stF) :
    ∃ n st1, natParse64 (f.filter Char.isDigit) = some n ∧
      fieldsRun st1 (g :: r) = .ok stF ∧
      st1.u = { st.u with ts := n } ∧ st1.count = 1 ∧ st1.buf = [] := by
  have hc : (absorbF st f).count = 0 := (absorbF_count f st).trans hcnt
  have hb : (absorbF st f).buf = f.filter Char.isDigit := by
    rw [absorbF_buf, hbuf, hcnt, keepP_zero, List.nil_append]
  cases hp : natParse64 (f.filter Char.isDigit) with
  | none =>
    rw [fieldsRun_cons_bad (commitF_at0_bad hc (by rw [hb]; exact hp))] at hr
    cases hr
  | some n =>
    refine ⟨n, _, rfl, (fieldsRun_cons_ok (commitF_at0 hc (by rw [hb]; exact hp))).symm.trans hr,
      ?_, rfl, rfl⟩
    show ({ (absorbF st f).u with ts := n }) = { st.u with ts := n }
    rw [absorbF_u]

theorem fr_step1 {st stF : LoopSt} {f g : List Char} {r : List (List Char)}
    (hcnt : st.count = 1) (hbuf : st.buf = [])
    (hr : fieldsRun st (f :: g :: r) = .ok stF) :
    ∃ n st1, natParse32 (f.filter (fun c => c.isDigit || decide (c = '.'))) = some n ∧
      fieldsRun st1 (g :: r) = .ok stF ∧
      st1.u = { st.u with seq := n } ∧ st1.count = 2 ∧ st1.buf = [] := by
  have hc : (absorbF st f).count = 1 := (absorbF_count f st).trans hcnt
  have hb : (absorbF st f).buf = f.filter (fun c => c.isDigit || decide (c = '.')) := by
    rw [absorbF_buf, hbuf, hcnt, keepP_succ 1 (by decide), List.nil_append]
  cases hp : natParse32 (f.filter (fun c => c.isDigit || decide (c = '.'))) with
  | none =>
    rw [fieldsRun_cons_bad (commitF_at1_bad hc (by rw [hb]; exact hp))] at hr
    cases hr
  | some n =>
    refine ⟨n, _, rfl, (fieldsRun_cons_ok (commitF_at1 hc (by rw [hb]; exact hp))).symm.trans hr,
      ?_, rfl, rfl⟩
    show ({ (absorbF st f).u with seq := n }) = { st.u with seq := n }
    rw [absorbF_u]

theorem fr_step2 {st stF : LoopSt} {f g : List Char} {r : List (List Char)}
    (hcnt : st.count = 2)
    (hr : fieldsRun st (f :: g :: r) = .ok stF) :
    ∃ m st1, fieldsRun st1 (g :: r) = .ok stF ∧
      st1.u = { st.u with is_trade := m } ∧ st1.count = 3 ∧ st1.buf = [] := by
  have hc : (absorbF st f).count = 2 := (absorbF_count f st).trans hcnt
  refine ⟨(absorbF st f).mcb, _, (fieldsRun_cons_ok (commitF_at2 hc)).symm.trans hr,
    ?_, rfl, rfl⟩
  show ({ (absorbF st f).u with is_trade := (absorbF st f).mcb }) = _
  rw [absorbF_u]

theorem fr_step3 {st stF : LoopSt} {f g : List Char} {r : List (List Char)}
    (hcnt : st.count = 3)
    (hr : fieldsRun st (f :: g :: r) = .ok stF) :
    ∃ m st1, fieldsRun st1 (g :: r) = .ok stF ∧
      st1.u = { st.u with is_bid := m } ∧ st1.count = 4 ∧ st1.buf = [] := by
  have hc : (absorbF st f).count = 3 := (absorbF_count f st).trans hcnt
  refine ⟨(absorbF st f).mcb, _, (fieldsRun_cons_ok (commitF_at3 hc)).symm.trans hr,
    ?_, rfl, rfl⟩
  show ({ (absorbF st f).u with is_bid := (absorbF st f).mcb }) = _
  rw [absorbF_u]

theorem fr_step4 {st stF : LoopSt} {f g : List Char} {r : List (List Char)}
    (hcnt : st.count = 4) (hbuf : st.buf = [])
    (hr : fieldsRun st (f :: g :: r) = .ok stF) :
    ∃ p st1, ratParse (f.filter (fun c => c.isDigit || decide (c = '.'))) = some p ∧
      fieldsRun st1 (g :: r) = .ok stF ∧
      st1.u = { st.u with price := p } ∧ st1.count = 5 ∧ st1.buf = [] := by
  have hc : (absorbF st f).count = 4 := (absorbF_count f st).trans hcnt
  have hb : (absorbF st f).buf = f.filter (fun c => c.isDigit || decide (c = '.')) := by
    rw [absorbF_buf, hbuf, hcnt, keepP_succ 4 (by decide), List.nil_append]
  cases hp : ratParse (f.filter (fun c => c.isDigit || decide (c = '.'))) with
  | none =>
    rw [fieldsRun_cons_bad (commitF_at4_bad hc (by rw [hb]; exact hp))] at hr
    cases hr
  | some p =>
    refine ⟨p, _, rfl, (fieldsRun_cons_ok (commitF_at4 hc (by rw [hb]; exact hp))).symm.trans hr,
      ?_, rfl, rfl⟩
    show ({ (absorbF st f).u with price := p }) = { st.u with price := p }
    rw [absorbF_u]

theorem fr_step5 {st stF : LoopSt} {f g : List Char} {r : List (List Char)}
    (hcnt : st.count = 5) (hbuf : st.buf = [])
    (hr : fieldsRun st (f :: g :: r) = .ok stF) :
    ∃ p st1, ratParse (f.filter (fun c => c.isDigit || decide (c = '.'))) = some p ∧
      fieldsRun st1 (g :: r) = .ok stF ∧
      st1.u = { st.u with size := p } ∧ st1.count = 6 ∧ st1.buf = [] := by
  have hc : (absorbF st f).count = 5 := (absorbF_count f st).trans hcnt
  have hb : (absorbF st f).buf = f.filter (fun c => c.isDigit || decide (c = '.')) := by
    rw [absorbF_buf, hbuf, hcnt, keepP_succ 5 (by decide), List.nil_append]
  cases hp : ratParse (f.filter (fun c => c.isDigit || decide (c = '.'))) with
  | none =>
    rw [fieldsRun_cons_bad (commitF_at5_bad hc (by rw [hb]; exact hp))] at hr
    cases hr
  | some p =>
    refine ⟨p, _, rfl, (fieldsRun_cons_ok (commitF_at5 hc (by rw [hb]; exact hp))).symm.trans hr,
      ?_, rfl, rfl⟩
    show ({ (absorbF st f).u with size := p }) = { st.u with size := p }
    rw [absorbF_u]

theorem fr_last {st stF : LoopSt} {f : List Char}
    (hr : fieldsRun st [f] = .ok stF) : stF.u = st.u := by
  rw [fieldsRun_single] at hr
  cases hr
  rw [absorbF_u]

/-- C7: for every input line that `parse_line` accepts, the line has exactly
seven `,`/`;`-separated fields, the resulting update's `ts` equals the digit
string of field 0 (its decimal point, and any other non-digit, is dropped
before the `u64` parse), while in fields 4 (`price`) and 5 (`size`) the
decimal point is preserved in the buffered text handed to the float
parse. -/
theorem c7_timestamp_field {s : List Char} {u : Update} (h : parse_line s = .ok u) :
    (splitD s).length = 7 ∧
    natParse64 (((splitD s).getD 0 []).filter Char.isDigit) = some u.ts ∧
    ratParse (((splitD s).getD 4 []).filter (fun c => c.isDigit || decide (c = '.'))) =
      some u.price ∧
    ratParse (((splitD s).getD 5 []).filter (fun c => c.isDigit || decide (c = '.'))) =
      some u.size := by
  obtain ⟨stF, hr, hu, -, -⟩ := parse_line_ok_elim h
  rw [runChars_eq_fieldsRun] at hr
  have h7 := parse_line_ok_seven h
  obtain ⟨f0, f1, f2, f3, f4, f5, f6, hfs⟩ := list_len7 h7
  rw [hfs] at hr
  obtain ⟨n0, s1, hp0, hr1, hu1, hc1, hb1⟩ := fr_step0 rfl rfl hr
  obtain ⟨n1, s2, hp1, hr2, hu2, hc2, hb2⟩ := fr_step1 hc1 hb1 hr1
  obtain ⟨m2, s3, hr3, hu3, hc3, hb3⟩ := fr_step2 hc2 hr2
  obtain ⟨m3, s4, hr4, hu4, hc4, hb4⟩ := fr_step3 hc3 hr3
  obtain ⟨p4, s5, hp4, hr5, hu5, hc5, hb5⟩ := fr_step4 hc4 hb4 hr4
  obtain ⟨p5, s6, hp5, hr6, hu6, hc6, hb6⟩ := fr_step5 hc5 hb5 hr5
  have huF : stF.u = s6.u := fr_last hr6
  have hueq : u = { ts := n0, seq := n1, is_trade := m2, is_bid := m3,
                    price := p4, size := p5 } := by
    rw [← hu, huF, hu6, hu5, hu4, hu3, hu2, hu1]
  refine ⟨h7, ?_, ?_, ?_⟩
  · rw [hfs]
    show natParse64 (f0.filter Char.isDigit) = some u.ts
    rw [hueq]
    exact hp0
  · rw [hfs]
    show ratParse (f4.filter (fun c => c.isDigit || decide (c = '.'))) = some u.price
    rw [hueq]
    exact hp4
  · rw [hfs]
    show ratParse (f5.filter (fun c => c.isDigit || decide (c = '.'))) = some u.size
    rw [hueq]
    exact hp5

/-! ## Response-shape lemmas: every produced response is exactly one of
text / binary / error -/

theorem addCmd_canonical {s : List Char} {st : State} {fs : FS} {r : Resp} {st' : State}
    {fs' : FS} (h : addCmd s st fs = some (r, st', fs')) :
    (∃ t, r = respText t) ∨ (∃ b, r = respBin b) ∨ (∃ e, r = respErr e) := by
  unfold addCmd at h
  repeat' split at h
  all_goals first
    | (rw [Option.map_eq_some'] at h; obtain ⟨p, -, hf⟩ := h; cases hf <;> exact Or.inl ⟨_, rfl⟩)
    | (cases h <;> exact Or.inl ⟨_, rfl⟩)
    | (cases h <;> exact Or.inr (Or.inl ⟨_, rfl⟩))
    | (cases h <;> exact Or.inr (Or.inr ⟨_, rfl⟩))

theorem createCmd_canonical {s : List Char} {st : State} {fs : FS} {r : Resp} {st' : State}
    {fs' : FS} (h : createCmd s st fs = some (r, st', fs')) :
    (∃ t, r = respText t) ∨ (∃ b, r = respBin b) ∨ (∃ e, r = respErr e) := by
  unfold createCmd at h
  cases h; exact Or.inl ⟨_, rfl⟩

theorem useCmd_canonical {s : List Char} {st : State} {fs : FS} {r : Resp} {st' : State}
    {fs' : FS} (h : useCmd s st fs = some (r, st', fs')) :
    (∃ t, r = respText t) ∨ (∃ b, r = respBin b) ∨ (∃ e, r = respErr e) := by
  unfold useCmd at h
  split at h
  · cases h; exact Or.inl ⟨_, rfl⟩
  · cases h; exact Or.inr (Or.inr ⟨_, rfl⟩)

theorem getCmd_canonical {s : List Char} {st : State} {fs : FS} {r : Resp} {st' : State}
    {fs' : FS} (h : getCmd s st fs = some (r, st', fs')) :
    (∃ t, r = respText t) ∨ (∃ b, r = respBin b) ∨ (∃ e, r = respErr e) := by
  unfold getCmd at h
  repeat' split at h
  all_goals first
    | (cases h <;> exact Or.inl ⟨_, rfl⟩)
    | (cases h <;> exact Or.inr (Or.inl ⟨_, rfl⟩))
    | (cases h <;> exact Or.inr (Or.inr ⟨_, rfl⟩))

theorem catchAll_canonical {s : List Char} {st : State} {fs : FS} {r : Resp} {st' : State}
    {fs' : FS} (h : catchAll s st fs = some (r, st', fs')) :
    (∃ t, r = respText t) ∨ (∃ b, r = respBin b) ∨ (∃ e, r = respErr e) := by
  unfold catchAll at h
  repeat' split at h
  all_goals first
    | (rw [Option.map_eq_some'] at h; obtain ⟨p, -, hf⟩ := h; cases hf <;> exact Or.inl ⟨_, rfl⟩)
    | (cases h <;> exact Or.inl ⟨_, rfl⟩)
    | (cases h <;> exact Or.inr (Or.inl ⟨_, rfl⟩))
    | (cases h <;> exact Or.inr (Or.inr ⟨_, rfl⟩))
    | exact addCmd_canonical h
    | exact createCmd_canonical h
    | exact useCmd_canonical h
    | exact getCmd_canonical h

theorem genResponse_canonical {s : List Char} {st : State} {fs : FS} {r : Resp} {st' : State}
    {fs' : FS} (h : genResponse s st fs = some (r, st', fs')) :
    (∃ t, r = respText t) ∨ (∃ b, r = respBin b) ∨ (∃ e, r = respErr e) := by
  unfold genResponse at h
  repeat' split at h
  all_goals first
    | (cases h <;> exact Or.inl ⟨_, rfl⟩)
    | (cases h <;> exact Or.inr (Or.inl ⟨_, rfl⟩))
    | (cases h <;> exact Or.inr (Or.inr ⟨_, rfl⟩))
    | exact catchAll_canonical h

/-- C8: every response triple `gen_response` actually returns populates
exactly one of (text, binary, error), and the status byte `handle_client`
writes for it is `0x01` exactly when the error component is absent. -/
theorem c8_response_shape {s : List Char} {st : State} {fs : FS} {r : Resp} {st' : State}
    {fs' : FS} (h : genResponse s st fs = some (r, st', fs')) :
    ((r.text.isSome ∧ r.bin = none ∧ r.err = none) ∨
     (r.text = none ∧ r.bin.isSome ∧ r.err = none) ∨
     (r.text = none ∧ r.bin = none ∧ r.err.isSome)) ∧
    (statusByte r = some 1 ↔ r.err = none) := by
  rcases genResponse_canonical h with ⟨t, rfl⟩ | ⟨b, rfl⟩ | ⟨e, rfl⟩ <;>
    simp [respText, respBin, respErr, statusByte]

theorem mem_updateA {β : Type} {l : List (List Char × β)} {k : List Char} {f : β → β}
    {p : List Char × β} (h : p ∈ updateA l k f) :
    p ∈ l ∨ ∃ v, (k, v) ∈ l ∧ p = (k, f v) := by
  induction l with
  | nil => simp [updateA] at h
  | cons q r ih =>
    unfold updateA at h
    split at h
    next heq =>
      rcases List.mem_cons.mp h with h1 | h1
      · right
        refine ⟨q.2, List.mem_cons.mpr (Or.inl (by rw [← heq])), ?_⟩
        rw [h1, heq]
      · exact Or.inl (List.mem_cons.mpr (Or.inr h1))
    next hne =>
      rcases List.mem_cons.mp h with h1 | h1
      · exact Or.inl (List.mem_cons.mpr (Or.inl h1))
      · rcases ih h1 with h2 | ⟨v, hv, hp⟩
        · exact Or.inl (List.mem_cons.mpr (Or.inr h2))
        · exact Or.inr ⟨v, List.mem_cons.mpr (Or.inr hv), hp⟩

theorem mem_insertA {β : Type} {l : List (List Char × β)} {k : List Char} {v : β}
    {p : List Char × β} (h : p ∈ insertA l k v) :
    p ∈ l ∨ p = (k, v) := by
  unfold insertA at h
  split at h
  · rcases mem_updateA h with h1 | ⟨w, _, hp⟩
    · exact Or.inl h1
    · exact Or.inr hp
  · rcases List.mem_append.mp h with h1 | h1
    · exact Or.inl h1
    · exact Or.inr (by simpa using h1)

theorem addS_parts {st : State} {up : Update} {st1 : State} (h : st.addS up = some st1) :
    InMemInv st → InMemInv st1 ∧ st1.settings = st.settings ∧
      st1.current_store_name = st.current_store_name ∧ st1.is_adding = st.is_adding := by
  intro hinv
  unfold State.addS State.insertS at h
  split at h
  · cases h
    refine ⟨?_, rfl, rfl, rfl⟩
    intro p hp hmem
    rcases mem_updateA hp with h1 | ⟨v, hv, rfl⟩
    · exact hinv p h1 hmem
    · have h2 : v.size = v.v.length :=
        hinv (st.current_store_name, v) hv (by simpa [Store.add] using hmem)
      simp [Store.add, h2]
  · cases h

theorem insertS_parts {st : State} {up : Update} {n : List Char} {st1 : State}
    (h : st.insertS up n = some st1) :
    InMemInv st → InMemInv st1 ∧ st1.settings = st.settings ∧
      st1.current_store_name = st.current_store_name ∧ st1.is_adding = st.is_adding := by
  intro hinv
  unfold State.insertS at h
  split at h
  · cases h
    refine ⟨?_, rfl, rfl, rfl⟩
    intro p hp hmem
    rcases mem_updateA hp with h1 | ⟨v, hv, rfl⟩
    · exact hinv p h1 hmem
    · have h2 : v.size = v.v.length :=
        hinv (n, v) hv (by simpa [Store.add] using hmem)
      simp [Store.add, h2]
  · cases h

/-- With autoflush disabled, `State::autoflush` is a no-op (when it does
not panic on a missing current store). -/
theorem autoflushS_noop {st : State} {fs : FS} {p : State × FS}
    (haf : st.settings.autoflush = false) (h : st.autoflushS fs = some p) :
    p = (st, fs) := by
  unfold State.autoflushS at h
  split at h
  · cases h
  · rw [if_neg (by simp [haf])] at h
    cases h
    rfl

theorem loadFS_SInv {v : Store} {fs : FS} (h : SInv v) : SInv (v.loadFS fs) := by
  unfold Store.loadFS
  split
  · split
    · intro _; rfl
    · exact h
  · exact h

theorem clear_SInv {v : Store} {fs : FS} : SInv (v.clear fs) := by
  intro hmem
  simp [Store.clear] at hmem

theorem addCmd_inv {s : List Char} {st : State} {fs : FS} {r : Resp} {st' : State} {fs' : FS}
    (haf : st.settings.autoflush = false) (hinv : InMemInv st)
    (h : addCmd s st fs = some (r, st', fs')) :
    InMemInv st' ∧ st'.settings = st.settings := by
  unfold addCmd at h
  split at h
  · split at h
    · cases h
    · split at h
      · split at h
        · cases h
        next st1 hins =>
          rw [Option.map_eq_some'] at h
          obtain ⟨p, hpa, hf⟩ := h
          obtain ⟨h1, h2, h3, h4⟩ := insertS_parts hins hinv
          have hpe := autoflushS_noop (by rw [h2]; exact haf) hpa
          subst hpe
          cases hf
          exact ⟨h1, h2⟩
      · cases h; exact ⟨hinv, rfl⟩
      · cases h
  · split at h
    · split at h
      · cases h
      next st1 hadd =>
        rw [Option.map_eq_some'] at h
        obtain ⟨p, hpa, hf⟩ := h
        obtain ⟨h1, h2, h3, h4⟩ := addS_parts hadd hinv
        have hpe := autoflushS_noop (by rw [h2]; exact haf) hpa
        subst hpe
        cases hf
        exact ⟨h1, h2⟩
    · cases h; exact ⟨hinv, rfl⟩
    · cases h

theorem createCmd_inv {s : List Char} {st : State} {fs : FS} {r : Resp} {st' : State} {fs' : FS}
    (hinv : InMemInv st) (h : createCmd s st fs = some (r, st', fs')) :
    InMemInv st' ∧ st'.settings = st.settings := by
  unfold createCmd at h
  cases h
  refine ⟨?_, rfl⟩
  intro p hp hmem
  rcases mem_insertA hp with h1 | rfl
  · exact hinv p h1 hmem
  · simp at hmem

theorem useCmd_inv {s : List Char} {st : State} {fs : FS} {r : Resp} {st' : State} {fs' : FS}
    (hinv : InMemInv st) (h : useCmd s st fs = some (r, st', fs')) :
    InMemInv st' ∧ st'.settings = st.settings := by
  unfold useCmd at h
  split at h
  · cases h
    refine ⟨?_, rfl⟩
    intro p hp hmem
    rcases mem_updateA hp with h1 | ⟨v, hv, rfl⟩
    · exact hinv p h1 hmem
    · exact loadFS_SInv (fun hm => hinv (s.drop 4, v) hv hm) hmem
  · cases h; exact ⟨hinv, rfl⟩

theorem getCmd_inv {s : List Char} {st : State} {fs : FS} {r : Resp} {st' : State} {fs' : FS}
    (hinv : InMemInv st) (h : getCmd s st fs = some (r, st', fs')) :
    InMemInv st' ∧ st'.settings = st.settings := by
  unfold getCmd at h
  repeat' split at h
  all_goals cases h <;> exact ⟨hinv, rfl⟩

theorem catchAll_inv {s : List Char} {st : State} {fs : FS} {r : Resp} {st' : State} {fs' : FS}
    (haf : st.settings.autoflush = false) (hinv : InMemInv st)
    (h : catchAll s st fs = some (r, st', fs')) :
    InMemInv st' ∧ st'.settings = st.settings := by
  unfold catchAll at h
  split at h
  · split at h
    · split at h
      · cases h
      next st1 hadd =>
        rw [Option.map_eq_some'] at h
        obtain ⟨p, hpa, hf⟩ := h
        obtain ⟨h1, h2, h3, h4⟩ := addS_parts hadd hinv
        have hpe := autoflushS_noop (by rw [h2]; exact haf) hpa
        subst hpe
        cases hf
        exact ⟨h1, h2⟩
    · cases h; exact ⟨hinv, rfl⟩
    · cases h
  · split at h
    · exact addCmd_inv haf hinv h
    · split at h
      · exact createCmd_inv hinv h
      · split at h
        · exact useCmd_inv hinv h
        · split at h
          · exact getCmd_inv hinv h
          · cases h; exact ⟨hinv, rfl⟩

theorem genResponse_inv {s : List Char} {st : State} {fs : FS} {r : Resp} {st' : State} {fs' : FS}
    (haf : st.settings.autoflush = false) (hinv : InMemInv st)
    (h : genResponse s st fs = some (r, st', fs')) :
    InMemInv st' ∧ st'.settings = st.settings := by
  unfold genResponse at h
  split at h
  · cases h; exact ⟨hinv, rfl⟩
  · cases h; exact ⟨hinv, rfl⟩
  · cases h; exact ⟨hinv, rfl⟩
  · cases h; exact ⟨hinv, rfl⟩
  · cases h; exact ⟨hinv, rfl⟩
  · cases h; exact ⟨hinv, rfl⟩
  · split at h
    · cases h
    · cases h; exact ⟨hinv, rfl⟩
  · repeat' split at h
    all_goals cases h <;> exact ⟨hinv, rfl⟩
  · split at h
    · cases h
    · cases h
      refine ⟨?_, rfl⟩
      intro p hp hmem
      rcases mem_updateA hp with h1 | ⟨v, hv, rfl⟩
      · exact hinv p h1 hmem
      · exact clear_SInv hmem
  · cases h
    refine ⟨?_, rfl⟩
    intro p hp hmem
    rcases List.mem_map.mp hp with ⟨q, hq, rfl⟩
    exact clear_SInv hmem
  · split at h
    · cases h
    · cases h; exact ⟨hinv, rfl⟩
  · cases h; exact ⟨hinv, rfl⟩
  · exact catchAll_inv haf hinv h

theorem runCmds_inv :
    ∀ (cmds : List (List Char)) (st : State) (fs : FS) (st' : State) (fs' : FS),
      st.settings.autoflush = false → InMemInv st →
      runCmds cmds st fs = some (st', fs') → InMemInv st' := by
  intro cmds
  induction cmds with
  | nil => intro st fs st' fs' _ hinv h; cases h; exact hinv
  | cons c rest ih =>
    intro st fs st' fs' haf hinv h
    unfold runCmds at h
    split at h
    · cases h
    next r st1 fs1 heq =>
      obtain ⟨h1, h2⟩ := genResponse_inv haf hinv heq
      exact ih st1 fs1 st' fs' (by rw [h2]; exact haf) h1 h

/-! ## Helper lemmas for walking the dispatcher on symbolic commands -/

theorem takeWhile_ne_space {ds : List Char} (h : ∀ c ∈ ds, c.isDigit = true) :
    ds.takeWhile (fun c => decide (c ≠ ' ')) = ds := by
  induction ds with
  | nil => rfl
  | cons d r ih =>
    have hd := h d (by simp)
    have hne : decide (d ≠ ' ') = true := by
      rw [decide_eq_true_eq]
      intro he
      rw [he] at hd
      exact absurd hd (by decide)
    rw [List.takeWhile_cons, hne]
    simp only [if_true]
    rw [ih (fun c hc => h c (by simp [hc]))]

theorem takeWhile_digits_space {ds tail : List Char} (h : ∀ c ∈ ds, c.isDigit = true) :
    (ds ++ ' ' :: tail).takeWhile (fun c => decide (c ≠ ' ')) = ds := by
  induction ds with
  | nil => rfl
  | cons d r ih =>
    have hd := h d (by simp)
    have hne : decide (d ≠ ' ') = true := by
      rw [decide_eq_true_eq]
      intro he
      rw [he] at hd
      exact absurd hd (by decide)
    rw [List.cons_append, List.takeWhile_cons, hne]
    simp only [if_true]
    rw [ih (fun c hc => h c (by simp [hc]))]

theorem parseI32_digits {ds : List Char} (h : ∀ c ∈ ds, c.isDigit = true) (hne : ds ≠ [])
    (hb : natOfDigits ds < 2 ^ 31) : parseI32 ds = some ((natOfDigits ds : Int)) := by
  obtain ⟨d, r, rfl⟩ : ∃ d r, ds = d :: r := by
    cases ds with
    | nil => exact absurd rfl hne
    | cons d r => exact ⟨d, r, rfl⟩
  have hd := h d (by simp)
  unfold parseI32
  rw [if_neg, if_neg, if_pos ⟨hne, by simpa using h, hb⟩]
  · intro hc
    simp at hc
    rw [hc] at hd
    exact absurd hd (by decide)
  · intro hc
    simp at hc
    rw [hc] at hd
    exact absurd hd (by decide)

theorem firstIdxOf_none {a : Char} {pa s : List Char} (h : a ∉ s) :
    firstIdxOf (a :: pa) s = none := by
  induction s with
  | nil => rfl
  | cons c cs ih =>
    unfold firstIdxOf
    have hd : decide (a = c) = false := by
      simp only [decide_eq_false_iff_not]
      intro he
      exact h (by rw [he]; simp)
    rw [show startsWithL (a :: pa) (c :: cs) = false by
      unfold startsWithL; rw [hd]; rfl]
    simp only [Bool.false_eq_true, if_false]
    rw [ih (fun hm => h (by simp [hm]))]
    rfl

theorem hasInfL_false {a : Char} {pa s : List Char} (h : a ∉ s) :
    hasInfL (a :: pa) s = false := by
  unfold hasInfL
  rw [firstIdxOf_none h]
  rfl

theorem startsWithL_self_append (p t : List Char) : startsWithL p (p ++ t) = true := by
  induction p with
  | nil => rfl
  | cons c cs ih =>
    unfold startsWithL
    simp only [List.cons_append]
    rw [ih]
    simp

theorem hasInfL_of_startsWith {pat s : List Char} (h : startsWithL pat s = true) :
    hasInfL pat s = true := by
  unfold hasInfL
  cases s with
  | nil =>
    show (if startsWithL pat [] = true then some 0 else none).isSome = true
    rw [h]
    rfl
  | cons c cs =>
    show (if startsWithL pat (c :: cs) = true then some 0
          else (firstIdxOf pat cs).map (fun x => x + 1)).isSome = true
    rw [h]
    rfl

theorem hasInfL_append (pat pre s : List Char) (h : hasInfL pat s = true) :
    hasInfL pat (pre ++ s) = true := by
  induction pre with
  | nil => exact h
  | cons c cs ih =>
    unfold hasInfL
    show (if startsWithL pat (c :: (cs ++ s)) = true then some 0
          else (firstIdxOf pat (cs ++ s)).map (fun x => x + 1)).isSome = true
    split
    · rfl
    · rcases ho : firstIdxOf pat (cs ++ s) with _ | k
      · unfold hasInfL at ih
        rw [ho] at ih
        simp at ih
      · rfl

theorem hasInfL_suffix (pat pre : List Char) : hasInfL pat (pre ++ pat) = true := by
  induction pre with
  | nil =>
    refine hasInfL_of_startsWith ?_
    have := startsWithL_self_append pat []
    rwa [List.append_nil] at this
  | cons c cs ih =>
    exact hasInfL_append pat [c] (cs ++ pat) ih

theorem i32OfU64_small {n : Nat} (h : n < 2 ^ 31) : i32OfU64 n = (n : Int) := by
  unfold i32OfU64
  rw [Nat.mod_eq_of_lt (lt_trans h (by norm_num))]
  rw [if_pos h]

theorem usizeOfI32_ofNat {n : Nat} (h : n < 2 ^ 64) : usizeOfI32 ((n : Int)) = n := by
  unfold usizeOfI32
  rw [Int.emod_eq_of_lt (by positivity) (by exact_mod_cast h)]
  simp

theorem classify_get_digit {d : Char} {rest : List Char} (hd : d.isDigit = true) :
    classify ("GET ".data ++ d :: rest) = .other := by
  have hga : ¬("GET ".data ++ d :: rest = "GET ALL AS JSON".data) := by
    intro h
    simp at h
    obtain ⟨h1, -⟩ := h
    rw [h1] at hd
    exact absurd hd (by decide)
  have hgb : ¬("GET ".data ++ d :: rest = "GET ALL".data) := by
    intro h
    simp at h
    obtain ⟨h1, -⟩ := h
    rw [h1] at hd
    exact absurd hd (by decide)
  unfold classify
  rw [if_neg (by intro h; simp at h),
      if_neg (by intro h; simp at h),
      if_neg (by intro h; simp at h),
      if_neg (by intro h; simp at h),
      if_neg (by intro h; simp at h),
      if_neg (by intro h; simp at h),
      if_neg hga,
      if_neg hgb,
      if_neg (by intro h; simp at h),
      if_neg (by intro h; simp at h),
      if_neg (by intro h; simp at h),
      if_neg (by intro h; simp at h)]

theorem classify_create (name : List Char) :
    classify ("CREATE ".data ++ name) = .other := by
  unfold classify
  rw [if_neg (by intro h; simp at h),
      if_neg (by intro h; simp at h),
      if_neg (by intro h; simp at h),
      if_neg (by intro h; simp at h),
      if_neg (by intro h; simp at h),
      if_neg (by intro h; simp at h),
      if_neg (by intro h; simp at h),
      if_neg (by intro h; simp at h),
      if_neg (by intro h; simp at h),
      if_neg (by intro h; simp at h),
      if_neg (by intro h; simp at h),
      if_neg (by intro h; simp at h)]

/-- On `GET <digits>` (binary variant) the dispatcher reaches `getCmd` and
reduces to `State::get` on the parsed count. -/
theorem genResponse_get_bin (st : State) (fs : FS) (d : Char) (rest : List Char)
    (hadd : st.is_adding = false) (hds : ∀ c ∈ (d :: rest), c.isDigit = true)
    (hn : natOfDigits (d :: rest) < 2 ^ 31) :
    genResponse ("GET ".data ++ d :: rest) st fs =
      match st.getS ((natOfDigits (d :: rest) : Int)) with
      | none => none
      | some none =>
        some (respErr ("Failed to get ".data ++
          intRepr ((natOfDigits (d :: rest) : Int)) ++ ".".data), st, fs)
      | some (some b) => some (respBin b, st, fs) := by
  have hd : d.isDigit = true := hds d (by simp)
  unfold genResponse
  rw [classify_get_digit hd]
  show catchAll _ _ _ = _
  unfold catchAll
  rw [if_neg (by simp [hadd]),
      if_neg (by simp [startsWithL]),
      if_neg (by simp [startsWithL]),
      if_neg (by simp [startsWithL]),
      if_pos (by simp [startsWithL])]
  unfold getCmd
  rw [show ("GET ".data ++ d :: rest).drop 4 = d :: rest from rfl]
  rw [takeWhile_ne_space hds, parseI32_digits hds (by simp) hn]
  rw [show hasInfL "AS JSON".data ("GET ".data ++ d :: rest) = false from
    hasInfL_false (by
      intro h
      rcases List.mem_append.mp h with h1 | h2
      · exact absurd h1 (by decide)
      · rcases List.mem_cons.mp h2 with h3 | h4
        · rw [← h3] at hd
          exact absurd hd (by decide)
        · exact absurd (hds 'A' (by simp [h4])) (by decide))]
  rfl

/-- On `GET <digits> AS JSON` the dispatcher reaches the JSON branch of
`getCmd`. -/
theorem genResponse_get_json (st : State) (fs : FS) (d : Char) (rest : List Char)
    (hadd : st.is_adding = false) (hds : ∀ c ∈ (d :: rest), c.isDigit = true)
    (hn : natOfDigits (d :: rest) < 2 ^ 31) :
    genResponse ("GET ".data ++ (d :: rest) ++ " AS JSON".data) st fs =
      match lookupA st.store st.current_store_name with
      | none => none
      | some cs =>
        if i32OfU64 cs.size ≤ ((natOfDigits (d :: rest) : Int)) ∨ cs.size = 0 then
          some (respErr "Requested too many".data, st, fs)
        else if usizeOfI32 ((natOfDigits (d :: rest) : Int)) ≤ cs.v.length then
          some (respText ("[".data ++
            updateVecToJson (cs.v.take (usizeOfI32 ((natOfDigits (d :: rest) : Int)))) ++
            "]\n".data), st, fs)
        else none := by
  have hd : d.isDigit = true := hds d (by simp)
  have hshape : "GET ".data ++ (d :: rest) ++ " AS JSON".data =
      "GET ".data ++ d :: (rest ++ " AS JSON".data) := by simp
  rw [hshape]
  unfold genResponse
  rw [classify_get_digit hd]
  show catchAll _ _ _ = _
  unfold catchAll
  rw [if_neg (by simp [hadd]),
      if_neg (by simp [startsWithL]),
      if_neg (by simp [startsWithL]),
      if_neg (by simp [startsWithL]),
      if_pos (by simp [startsWithL])]
  unfold getCmd
  rw [show ("GET ".data ++ d :: (rest ++ " AS JSON".data)).drop 4 =
      d :: (rest ++ " AS JSON".data) from rfl]
  rw [show (d :: (rest ++ " AS JSON".data)) = (d :: rest) ++ ' ' :: "AS JSON".data from by simp]
  rw [takeWhile_digits_space hds, parseI32_digits hds (by simp) hn]
  rw [show hasInfL "AS JSON".data ("GET ".data ++ ((d :: rest) ++ ' ' :: "AS JSON".data)) =
      true from by
    rw [show "GET ".data ++ ((d :: rest) ++ ' ' :: "AS JSON".data) =
        (("GET ".data ++ (d :: rest)) ++ [' ']) ++ "AS JSON".data from by simp]
    exact hasInfL_suffix _ _]
  rfl

/-- C5: with a current store present and the connection not in bulk-add
mode, the binary variant `GET n` produces an error response exactly when
`size < n` or `size == 0`, while the JSON variant `GET n AS JSON` produces
an error exactly when `size <= n` or `size == 0` (the strict/non-strict
asymmetry of the source); when the binary variant does not fail and the
buffer really holds `n` updates, the payload is the first `n` buffered
updates.  (`n` is written as its digit string; counts are below `2^31` so
the `u64 -> i32` cast is value-preserving.) -/
theorem c5_get_boundary (st : State) (fs : FS) (cs : Store) (d : Char) (rest : List Char)
    (hadd : st.is_adding = false)
    (hcur : lookupA st.store st.current_store_name = some cs)
    (hds : ∀ c ∈ (d :: rest), c.isDigit = true)
    (hn : natOfDigits (d :: rest) < 2 ^ 31) (hsz : cs.size < 2 ^ 31) :
    ((∃ e st' fs', genResponse ("GET ".data ++ d :: rest) st fs = some (respErr e, st', fs')) ↔
      (cs.size < natOfDigits (d :: rest) ∨ cs.size = 0)) ∧
    ((∃ e st' fs', genResponse ("GET ".data ++ (d :: rest) ++ " AS JSON".data) st fs =
        some (respErr e, st', fs')) ↔
      (cs.size ≤ natOfDigits (d :: rest) ∨ cs.size = 0)) ∧
    (¬(cs.size < natOfDigits (d :: rest) ∨ cs.size = 0) →
      natOfDigits (d :: rest) ≤ cs.v.length →
      genResponse ("GET ".data ++ d :: rest) st fs =
        some (respBin (cs.v.take (natOfDigits (d :: rest))), st, fs)) := by
  have hbin := genResponse_get_bin st fs d rest hadd hds hn
  have hjson := genResponse_get_json st fs d rest hadd hds hn
  have hi32 : i32OfU64 cs.size = (cs.size : Int) := i32OfU64_small hsz
  have husize : usizeOfI32 ((natOfDigits (d :: rest) : Int)) = natOfDigits (d :: rest) :=
    usizeOfI32_ofNat (lt_trans hn (by norm_num))
  have hgetS : st.getS ((natOfDigits (d :: rest) : Int)) =
      if (cs.size : Int) < ((natOfDigits (d :: rest) : Int)) ∨ cs.size = 0 then some none
      else if ((natOfDigits (d :: rest) : Int)) = -1 then some (some cs.v)
      else if natOfDigits (d :: rest) ≤ cs.v.length then
        some (some (cs.v.take (natOfDigits (d :: rest))))
      else none := by
    unfold State.getS
    rw [hcur]
    show (if i32OfU64 cs.size < ((natOfDigits (d :: rest) : Int)) ∨ cs.size = 0 then some none
          else if ((natOfDigits (d :: rest) : Int)) = -1 then some (some cs.v)
          else if usizeOfI32 ((natOfDigits (d :: rest) : Int)) ≤ cs.v.length then
            some (some (cs.v.take (usizeOfI32 ((natOfDigits (d :: rest) : Int)))))
          else none) = _
    rw [hi32, husize]
  have hjson2 : genResponse ("GET ".data ++ (d :: rest) ++ " AS JSON".data) st fs =
      if (cs.size : Int) ≤ ((natOfDigits (d :: rest) : Int)) ∨ cs.size = 0 then
        some (respErr "Requested too many".data, st, fs)
      else if natOfDigits (d :: rest) ≤ cs.v.length then
        some (respText ("[".data ++
          updateVecToJson (cs.v.take (natOfDigits (d :: rest))) ++ "]\n".data), st, fs)
      else none := by
    rw [hjson, hcur]
    show (if i32OfU64 cs.size ≤ ((natOfDigits (d :: rest) : Int)) ∨ cs.size = 0 then
            some (respErr "Requested too many".data, st, fs)
          else if usizeOfI32 ((natOfDigits (d :: rest) : Int)) ≤ cs.v.length then
            some (respText ("[".data ++
              updateVecToJson (cs.v.take (usizeOfI32 ((natOfDigits (d :: rest) : Int)))) ++
              "]\n".data), st, fs)
          else none) = _
    rw [hi32, husize]
  refine ⟨?_, ?_, ?_⟩
  · rw [hbin, hgetS]
    by_cases hc : (cs.size : Int) < ((natOfDigits (d :: rest) : Int)) ∨ cs.size = 0
    · rw [if_pos hc]
      constructor
      · intro _
        rcases hc with hc | hc
        · exact Or.inl (by exact_mod_cast hc)
        · exact Or.inr hc
      · intro _
        exact ⟨_, st, fs, rfl⟩
    · rw [if_neg hc, if_neg (show ¬((natOfDigits (d :: rest) : Int) = -1) from by omega)]
      constructor
      · rintro ⟨e, st', fs', heq⟩
        split at heq
        next h1 => cases heq
        next h1 =>
          split at h1
          · simp at h1
          · cases h1
        next b h1 => simp [respBin, respErr] at heq
      · intro hrhs
        exact absurd (hrhs.imp (fun h => by exact_mod_cast h) id) hc
  · rw [hjson2]
    by_cases hc : (cs.size : Int) ≤ ((natOfDigits (d :: rest) : Int)) ∨ cs.size = 0
    · rw [if_pos hc]
      constructor
      · intro _
        rcases hc with hc | hc
        · exact Or.inl (by exact_mod_cast hc)
        · exact Or.inr hc
      · intro _
        exact ⟨_, st, fs, rfl⟩
    · rw [if_neg hc]
      constructor
      · rintro ⟨e, st', fs', heq⟩
        split at heq
        · simp [respText, respErr] at heq
        · cases heq
      · intro hrhs
        exact absurd (hrhs.imp (fun h => by exact_mod_cast h) id) hc
  · intro hnofail hlen
    rw [hbin, hgetS,
      if_neg (fun hcon => hnofail (hcon.imp (fun h => by exact_mod_cast h) id)),
      if_neg (show ¬((natOfDigits (d :: rest) : Int) = -1) from by omega),
      if_pos hlen]

theorem lookupA_updateA {β : Type} (l : List (List Char × β)) (k : List Char) (f : β → β) :
    lookupA (updateA l k f) k = (lookupA l k).map f := by
  induction l with
  | nil => rfl
  | cons q r ih =>
    unfold updateA
    split
    next heq =>
      unfold lookupA
      rw [if_pos heq, if_pos heq]
      rfl
    next hne =>
      unfold lookupA
      rw [if_neg hne, if_neg hne]
      exact ih

theorem lookupA_append_last {β : Type} :
    ∀ (l : List (List Char × β)) (k : List Char) (v : β), lookupA l k = none →
      lookupA (l ++ [(k, v)]) k = some v := by
  intro l
  induction l with
  | nil => intro k v _; simp [lookupA]
  | cons q r ih =>
    intro k v h
    unfold lookupA at h
    split at h
    · cases h
    next hne =>
      rw [List.cons_append]
      unfold lookupA
      rw [if_neg hne]
      exact ih k v h

theorem lookupA_insertA_self {β : Type} (l : List (List Char × β)) (k : List Char) (v : β) :
    lookupA (insertA l k v) k = some v := by
  unfold insertA
  split
  next hs =>
    rw [lookupA_updateA]
    rcases Option.isSome_iff_exists.mp hs with ⟨w, hw⟩
    rw [hw]
    rfl
  next hs =>
    refine lookupA_append_last l k v ?_
    rcases ho : lookupA l k with _ | w
    · rfl
    · rw [ho] at hs
      simp at hs

/-- C10: `CREATE name` with `name` already bound replaces the binding with a
fresh store (empty buffer, size 0, not in memory) and still answers with
the success text; the old store's buffered updates are no longer
reachable. -/
theorem c10_create_overwrites (st : State) (fs : FS) (name : List Char) (old : Store)
    (hadd : st.is_adding = false) (hold : lookupA st.store name = some old) :
    genResponse ("CREATE ".data ++ name) st fs =
      some (respText ("Created DB `".data ++ name ++ "`.\n".data),
        { st with store := insertA st.store name (freshStore name st.settings.dtf_folder) },
        fs) ∧
    lookupA (insertA st.store name (freshStore name st.settings.dtf_folder)) name =
      some (freshStore name st.settings.dtf_folder) := by
  constructor
  · unfold genResponse
    rw [classify_create]
    show catchAll _ _ _ = _
    unfold catchAll
    rw [if_neg (by simp [hadd]), if_neg (by simp [startsWithL]), if_pos (by simp [startsWithL])]
    unfold createCmd
    rw [show ("CREATE ".data ++ name).drop 7 = name from rfl]
    rfl
  · exact lookupA_insertA_self _ _ _

/-- C9 (amended): when the current store's `size` is at least the requested
count `n` but the buffer holds fewer than `n` updates, the binary `GET n`
panics (models `v[..n]` out of bounds: no response at all); the JSON
variant panics only when `size > n`, because at `size = n` its `size <= n`
check fires first and an error response is returned instead. -/
theorem c9_get_panics (st : State) (fs : FS) (cs : Store) (d : Char) (rest : List Char)
    (hadd : st.is_adding = false)
    (hcur : lookupA st.store st.current_store_name = some cs)
    (hds : ∀ c ∈ (d :: rest), c.isDigit = true)
    (hn : natOfDigits (d :: rest) < 2 ^ 31) (hsz : cs.size < 2 ^ 31) :
    (natOfDigits (d :: rest) ≤ cs.size → cs.v.length < natOfDigits (d :: rest) →
      genResponse ("GET ".data ++ d :: rest) st fs = none) ∧
    (natOfDigits (d :: rest) < cs.size → cs.v.length < natOfDigits (d :: rest) →
      genResponse ("GET ".data ++ (d :: rest) ++ " AS JSON".data) st fs = none) ∧
    (cs.size = natOfDigits (d :: rest) → cs.size ≠ 0 →
      genResponse ("GET ".data ++ (d :: rest) ++ " AS JSON".data) st fs =
        some (respErr "Requested too many".data, st, fs)) := by
  have hbin := genResponse_get_bin st fs d rest hadd hds hn
  have hjson := genResponse_get_json st fs d rest hadd hds hn
  have hi32 : i32OfU64 cs.size = (cs.size : Int) := i32OfU64_small hsz
  have husize : usizeOfI32 ((natOfDigits (d :: rest) : Int)) = natOfDigits (d :: rest) :=
    usizeOfI32_ofNat (lt_trans hn (by norm_num))
  have hgetS : st.getS ((natOfDigits (d :: rest) : Int)) =
      if (cs.size : Int) < ((natOfDigits (d :: rest) : Int)) ∨ cs.size = 0 then some none
      else if ((natOfDigits (d :: rest) : Int)) = -1 then some (some cs.v)
      else if natOfDigits (d :: rest) ≤ cs.v.length then
        some (some (cs.v.take (natOfDigits (d :: rest))))
      else none := by
    unfold State.getS
    rw [hcur]
    show (if i32OfU64 cs.size < ((natOfDigits (d :: rest) : Int)) ∨ cs.size = 0 then some none
          else if ((natOfDigits (d :: rest) : Int)) = -1 then some (some cs.v)
          else if usizeOfI32 ((natOfDigits (d :: rest) : Int)) ≤ cs.v.length then
            some (some (cs.v.take (usizeOfI32 ((natOfDigits (d :: rest) : Int)))))
          else none) = _
    rw [hi32, husize]
  have hjson2 : genResponse ("GET ".data ++ (d :: rest) ++ " AS JSON".data) st fs =
      if (cs.size : Int) ≤ ((natOfDigits (d :: rest) : Int)) ∨ cs.size = 0 then
        some (respErr "Requested too many".data, st, fs)
      else if natOfDigits (d :: rest) ≤ cs.v.length then
        some (respText ("[".data ++
          updateVecToJson (cs.v.take (natOfDigits (d :: rest))) ++ "]\n".data), st, fs)
      else none := by
    rw [hjson, hcur]
    show (if i32OfU64 cs.size ≤ ((natOfDigits (d :: rest) : Int)) ∨ cs.size = 0 then
            some (respErr "Requested too many".data, st, fs)
          else if usizeOfI32 ((natOfDigits (d :: rest) : Int)) ≤ cs.v.length then
            some (respText ("[".data ++
              updateVecToJson (cs.v.take (usizeOfI32 ((natOfDigits (d :: rest) : Int)))) ++
              "]\n".data), st, fs)
          else none) = _
    rw [hi32, husize]
  refine ⟨?_, ?_, ?_⟩
  · intro hge hlen
    rw [hbin, hgetS,
      if_neg (by omega),
      if_neg (show ¬((natOfDigits (d :: rest) : Int) = -1) from by omega),
      if_neg (by omega)]
  · intro hgt hlen
    rw [hjson2, if_neg (by omega), if_neg (by omega)]
  · intro heq hne
    rw [hjson2, if_pos (Or.inl (by exact_mod_cast le_of_eq heq))]

theorem runChars_no_delim :
    ∀ (l : List Char) (st : LoopSt), (∀ c ∈ l, ¬(c = ',' ∨ c = ';')) →
      runChars st l = .ok (absorbF st l) := by
  intro l
  induction l with
  | nil => intro st _; rfl
  | cons c cs ih =>
    intro st hno
    have hstep : stepChar st c = .ok (absorbChar c st) := by
      rw [stepChar, if_neg (hno c (by simp))]
    rw [runChars, hstep]
    exact ih (absorbChar c st) (fun d hd => hno d (List.mem_cons_of_mem c hd))

/-- A line the parser accepts must contain a `','` or `';'`: with no
delimiter no field is ever committed and the `-0.1` sentinels survive. -/
theorem parse_ok_has_delim {l : List Char} {u : Update} (h : parse_line l = .ok u) :
    ∃ c ∈ l, c = ',' ∨ c = ';' := by
  by_contra hno
  push_neg at hno
  have hrc := runChars_no_delim l initSt (fun c hc => by
    intro hor
    rcases hor with h1 | h1
    · exact (hno c hc).1 h1
    · exact (hno c hc).2 h1)
  simp only [parse_line, hrc] at h
  rw [absorbF_u] at h
  simp [initSt, F32.negPointOne, F32.isNeg] at h

/-- A line the parser accepts never equals one of the literal commands
(none of them contains a delimiter), so in bulk-add mode it reaches the
catch-all arm. -/
theorem classify_of_parse_ok {l : List Char} {u : Update} (h : parse_line l = .ok u) :
    classify l = .other := by
  obtain ⟨c, hc, hdelim⟩ := parse_ok_has_delim h
  have hlit : ∀ L : List Char, (',' ∉ L) → (';' ∉ L) → l ≠ L := by
    intro L h1 h2 heq
    subst heq
    rcases hdelim with rfl | rfl
    · exact h1 hc
    · exact h2 hc
  unfold classify
  rw [if_neg (hlit _ (by decide) (by decide)),
      if_neg (hlit _ (by decide) (by decide)),
      if_neg (hlit _ (by decide) (by decide)),
      if_neg (hlit _ (by decide) (by decide)),
      if_neg (hlit _ (by decide) (by decide)),
      if_neg (hlit _ (by decide) (by decide)),
      if_neg (hlit _ (by decide) (by decide)),
      if_neg (hlit _ (by decide) (by decide)),
      if_neg (hlit _ (by decide) (by decide)),
      if_neg (hlit _ (by decide) (by decide)),
      if_neg (hlit _ (by decide) (by decide)),
      if_neg (hlit _ (by decide) (by decide))]

/-- In bulk-add mode (autoflush disabled), a line that parses as an update
is appended to the current store and answered with the empty text. -/
theorem bulk_line_step (l : List Char) (st : State) (fs : FS) (up : Update)
    (hadd : st.is_adding = true) (haf : st.settings.autoflush = false)
    (hcur : (lookupA st.store st.current_store_name).isSome = true)
    (hok : parse_line l = .ok up) :
    genResponse l st fs = some (respText [],
      { st with store := updateA st.store st.current_store_name (fun s => s.add up) }, fs) := by
  rcases Option.isSome_iff_exists.mp hcur with ⟨cs, hcs⟩
  have haddS : st.addS up =
      some { st with store := updateA st.store st.current_store_name (fun s => s.add up) } := by
    unfold State.addS State.insertS
    rw [hcs]
  have hnext : lookupA (updateA st.store st.current_store_name (fun s => s.add up))
      st.current_store_name = some (cs.add up) := by
    rw [lookupA_updateA, hcs]
    rfl
  have hafS : ({ st with store := updateA st.store st.current_store_name (fun s => s.add up) } : State).autoflushS fs =
      some ({ st with store := updateA st.store st.current_store_name (fun s => s.add up) }, fs) := by
    unfold State.autoflushS
    show (match lookupA (updateA st.store st.current_store_name (fun s => s.add up)) st.current_store_name with
      | none => none
      | some cs =>
        if st.settings.autoflush = true then
          if st.settings.flush_interval = 0 then none
          else if cs.size % st.settings.flush_interval = 0 then
            some ({ st with store := updateA (updateA st.store st.current_store_name (fun s => s.add up)) st.current_store_name (fun s => s.load_size_from_file (cs.flushFS fs)) }, cs.flushFS fs)
          else some ({ st with store := updateA st.store st.current_store_name (fun s => s.add up) }, fs)
        else some ({ st with store := updateA st.store st.current_store_name (fun s => s.add up) }, fs)) = _
    rw [hnext]
    show (if st.settings.autoflush = true then _ else _) = _
    rw [if_neg (by simp [haf])]
  unfold genResponse
  rw [classify_of_parse_ok hok]
  show catchAll _ _ _ = _
  unfold catchAll
  rw [if_pos hadd, hok]
  show (match st.addS up with
    | none => none
    | some st1 => Option.map (fun (p : State × FS) => (respText [], p.1, p.2)) (st1.autoflushS fs)) = _
  rw [haddS]
  show Option.map (fun (p : State × FS) => (respText [], p.1, p.2))
    (({ st with store := updateA st.store st.current_store_name (fun s => s.add up) } : State).autoflushS fs) = _
  rw [hafS]
  rfl

/-- Running a block of successfully parsing lines in bulk-add mode adds one
update per line to the current store and touches nothing else. -/
theorem bulk_lines_run (lines : List (List Char)) :
    ∀ (st : State) (fs : FS) (cs : Store),
      st.is_adding = true → st.settings.autoflush = false →
      lookupA st.store st.current_store_name = some cs →
      (∀ l ∈ lines, ∃ up, parse_line l = .ok up) →
      ∃ st' cs', runCmds lines st fs = some (st', fs) ∧
        lookupA st'.store st'.current_store_name = some cs' ∧
        cs'.size = cs.size + lines.length ∧
        st'.is_adding = true ∧ st'.settings = st.settings := by
  induction lines with
  | nil =>
    intro st fs cs h1 h2 h3 _
    exact ⟨st, cs, rfl, h3, by simp, h1, rfl⟩
  | cons l rest ih =>
    intro st fs cs h1 h2 h3 hall
    obtain ⟨up, hup⟩ := hall l (by simp)
    have hstep := bulk_line_step l st fs up h1 h2 (by rw [h3]; rfl) hup
    have hcur2 : lookupA (updateA st.store st.current_store_name (fun s => s.add up))
        st.current_store_name = some (cs.add up) := by
      rw [lookupA_updateA, h3]
      rfl
    obtain ⟨st', cs', hrun, hl, hsz, hadd', hset⟩ :=
      ih { st with store := updateA st.store st.current_store_name (fun s => s.add up) }
        fs (cs.add up) h1 h2 hcur2 (fun l2 hl2 => hall l2 (by simp [hl2]))
    refine ⟨st', cs', ?_, hl, ?_, hadd', hset⟩
    · rw [runCmds, hstep]
      exact hrun
    · rw [hsz]
      simp [Store.add]
      omega

/-- Accepted updates always carry non-negative `price` and `size`: the
character loop buffers only digits and dots, so a parsed float can never be
negative, and the `-0.1` sentinels are rejected by the final check. -/
theorem parse_line_nonneg {s : List Char} {u : Update} (h : parse_line s = .ok u) :
    0 ≤ u.price.mant ∧ 0 ≤ u.size.mant := by
  obtain ⟨stF, hr, hu, hpr, hsz⟩ := parse_line_ok_elim h
  rw [← hu]
  unfold F32.isNeg at hpr hsz
  simp only [decide_eq_false_iff_not, not_lt] at hpr hsz
  exact ⟨hpr, hsz⟩

/-- C6 (amended): `BULKADD`, then lines that each parse as updates, then
`DDAKLUB`, increases the current store's size by exactly the number of
lines — provided autoflush is disabled; `DDAKLUB` answers `1\n` and resets
`is_adding`. -/
theorem c6_bulkadd_count (lines : List (List Char)) (st : State) (fs : FS) (cs : Store)
    (haf : st.settings.autoflush = false)
    (hcur : lookupA st.store st.current_store_name = some cs)
    (hall : ∀ l ∈ lines, ∃ up, parse_line l = .ok up) :
    ∃ st' cs', runCmds ("BULKADD".data :: lines) st fs = some (st', fs) ∧
      lookupA st'.store st'.current_store_name = some cs' ∧
      cs'.size = cs.size + lines.length ∧
      genResponse "DDAKLUB".data st' fs =
        some (respText "1\n".data, { st' with is_adding := false }, fs) := by
  have hB : genResponse "BULKADD".data st fs =
      some (respText [], { st with is_adding := true }, fs) := by
    unfold genResponse
    rw [show classify "BULKADD".data = CmdLit.bulkadd from by decide]
  obtain ⟨st', cs', hrun, hl, hsz, hadd', hset⟩ :=
    bulk_lines_run lines { st with is_adding := true } fs cs rfl haf hcur hall
  refine ⟨st', cs', ?_, hl, hsz, ?_⟩
  · rw [runCmds, hB]
    exact hrun
  · unfold genResponse
    rw [show classify "DDAKLUB".data = CmdLit.ddaklub from by decide]

/-! ## Claim theorems -/

/-- C1: the slice `string[3..(index_of(" INTO ") - 2)]` drops the final two
characters of the update line, so `ADD <valid line> INTO foo` — with store
`foo` present and the line individually parseable — answers the error
`Parse ADD INTO` and appends nothing, instead of the claimed `1\n`. -/
theorem c1_add_into_errors :
    genResponse
        "ADD 1505177459.658, 139010, t, f, 0.0703629, 7.65064249; INTO foo".data stFooC1 [] =
      some (respErr "Parse ADD INTO".data, stFooC1, []) ∧
    parse_line "1505177459.658, 139010, t, f, 0.0703629, 7.65064249;".data =
      .ok ⟨1505177459658, 139010, true, false, ⟨703629, 7⟩, ⟨765064249, 8⟩⟩ := by
  decide

/-- C2 counterexample: a negative price is NOT rejected — the `'-'` is
silently discarded by the character loop and the line parses successfully
with `price = 1.0`, contradicting the claim that `parse_line` yields no
Update. -/
theorem c2_negative_price_accepted :
    parse_line "1.0, 1, t, t, -1.0, 2.0;".data = .ok updNeg ∧
    genResponse "ADD 1.0, 1, t, t, -1.0, 2.0;".data (init_state settingsNF []) [] =
      some (respText "1\n".data, stC2', []) := by
  decide

/-- C2 (amended): a `'-'` sign in the price or size field is silently
discarded, so such lines parse successfully (`ADD 1.0, 1, t, t, -1.0,
2.0;` answers `1\n` and stores price `1.0`); consequently every stored
update still has non-negative price and size. -/
theorem c2_sign_dropped_nonneg :
    (∀ (s : List Char) (u : Update), parse_line s = .ok u →
      0 ≤ u.price.mant ∧ 0 ≤ u.size.mant) ∧
    genResponse "ADD 1.0, 1, t, t, -1.0, 2.0;".data (init_state settingsNF []) [] =
      some (respText "1\n".data, stC2', []) :=
  ⟨fun _ _ h => parse_line_nonneg h, by decide⟩

/-- C2 witness: the amended nonnegativity applied to the negative-price
line itself. -/
theorem c2_sign_dropped_nonneg_witness :
    0 ≤ updNeg.price.mant ∧ 0 ≤ updNeg.size.mant :=
  c2_sign_dropped_nonneg.1 "1.0, 1, t, t, -1.0, 2.0;".data updNeg (by decide)

/-- C3 counterexample: with autoflush enabled (interval 1), two `ADD`s with
equal timestamps leave the default store with `in_memory = true`,
`size = 1` but `|v| = 2` — the claimed invariant `in_memory → size = |v|`
is violated (the second flush appends nothing because the timestamp is not
strictly newer, and `load_size_from_file` overwrites `size` with the
header count 1). -/
theorem c3_counterexample :
    ((runCmds ["ADD 1,1,t,t,1,1;".data, "ADD 1,2,t,t,1,1;".data]
        (init_state settingsAF []) []).map
      (fun p => (decide (InMemInv p.1),
        (lookupA p.1.store "default".data).map (fun s => (s.in_memory, s.size, s.v.length))))) =
    some (false, some (true, 1, 2)) := by
  decide

/-- C3 (amended): the invariant `in_memory → size = |v|` holds after every
command sequence — provided the configuration's autoflush is disabled. -/
theorem c3_inv_no_autoflush (cmds : List (List Char)) (st : State) (fs : FS)
    (st' : State) (fs' : FS)
    (haf : st.settings.autoflush = false) (hinv : InMemInv st)
    (hrun : runCmds cmds st fs = some (st', fs')) : InMemInv st' :=
  runCmds_inv cmds st fs st' fs' haf hinv hrun

/-- C3 witness: the invariant after one `ADD` on a fresh autoflush-off
connection. -/
theorem c3_inv_no_autoflush_witness : InMemInv stW3 :=
  c3_inv_no_autoflush ["ADD 1,1,t,t,1,1;".data] (init_state settingsNF []) [] stW3 []
    (by decide) (by decide) (by decide)

/-- C4: a line with a seventh delimiter reaches the `panic!("IMPOSSIBLE")`
arm (the worker crashes — modelled `imposs`) instead of returning a parse
failure, while a line with fewer than six fields does fail gracefully. -/
theorem c4_seventh_delimiter :
    parse_line "0,0,t,t,0,0,0;".data = .imposs ∧
    parse_line "1,2,t,t,1;".data = .bad := by
  decide

/-- C5 witness: the boundary conditions evaluated on a store of size 3 with
three buffered updates and `n = 2`. -/
theorem c5_get_boundary_witness :
    ((∃ e st' fs', genResponse ("GET ".data ++ '2' :: []) stThree [] =
        some (respErr e, st', fs')) ↔
      (csThree.size < natOfDigits ['2'] ∨ csThree.size = 0)) ∧
    ((∃ e st' fs', genResponse ("GET ".data ++ ('2' :: []) ++ " AS JSON".data) stThree [] =
        some (respErr e, st', fs')) ↔
      (csThree.size ≤ natOfDigits ['2'] ∨ csThree.size = 0)) ∧
    (¬(csThree.size < natOfDigits ['2'] ∨ csThree.size = 0) →
      natOfDigits ['2'] ≤ csThree.v.length →
      genResponse ("GET ".data ++ '2' :: []) stThree [] =
        some (respBin (csThree.v.take (natOfDigits ['2'])), stThree, [])) :=
  c5_get_boundary stThree [] csThree '2' [] (by decide) (by decide) (by decide)
    (by decide) (by decide)

/-- C6 counterexample: with autoflush enabled (interval 1), `BULKADD`, two
valid lines with equal timestamps, `DDAKLUB` leaves the current store's
size increased by 1, not by `N = 2` (the mid-sequence
`load_size_from_file` rewrites `size` to the on-disk count). -/
theorem c6_counterexample :
    (runCmds ["BULKADD".data, "1,1,t,t,1,1;".data, "1,2,t,t,1,1;".data, "DDAKLUB".data]
        (init_state settingsAF []) []).map
      (fun p => ((lookupA p.1.store "default".data).map Store.size, p.1.is_adding)) =
    some (some 1, false) := by
  decide

/-- C6 witness: two parseable lines on a fresh autoflush-off connection. -/
theorem c6_bulkadd_count_witness :
    ∃ st' cs', runCmds ("BULKADD".data :: ["1,1,t,t,1,1;".data, "2,2,t,t,1,1;".data])
        (init_state settingsNF []) [] = some (st', []) ∧
      lookupA st'.store st'.current_store_name = some cs' ∧
      cs'.size = (⟨"default".data, "db".data, true, 0, []⟩ : Store).size +
        (["1,1,t,t,1,1;".data, "2,2,t,t,1,1;".data] : List (List Char)).length ∧
      genResponse "DDAKLUB".data st' [] =
        some (respText "1\n".data, { st' with is_adding := false }, []) :=
  c6_bulkadd_count ["1,1,t,t,1,1;".data, "2,2,t,t,1,1;".data] (init_state settingsNF []) []
    ⟨"default".data, "db".data, true, 0, []⟩ (by decide) (by decide)
    (by
      intro l hl
      rcases List.mem_cons.mp hl with rfl | hl2
      · exact ⟨updOne, by decide⟩
      · rcases List.mem_cons.mp hl2 with rfl | h3
        · exact ⟨⟨2, 2, true, true, ⟨1, 0⟩, ⟨1, 0⟩⟩, by decide⟩
        · simp at h3)

/-- C7 witness: the field correspondence evaluated on the spec's example
line. -/
theorem c7_timestamp_field_witness :
    (splitD exLine).length = 7 ∧
    natParse64 (((splitD exLine).getD 0 []).filter Char.isDigit) = some exUpd.ts ∧
    ratParse (((splitD exLine).getD 4 []).filter (fun c => c.isDigit || decide (c = '.'))) =
      some exUpd.price ∧
    ratParse (((splitD exLine).getD 5 []).filter (fun c => c.isDigit || decide (c = '.'))) =
      some exUpd.size :=
  c7_timestamp_field (show parse_line exLine = .ok exUpd by decide)

/-- C8 witness: the response shape and status byte of `PING` on a fresh
connection. -/
theorem c8_response_shape_witness :
    (((respText "PONG.\n".data).text.isSome ∧ (respText "PONG.\n".data).bin = none ∧
        (respText "PONG.\n".data).err = none) ∨
      ((respText "PONG.\n".data).text = none ∧ (respText "PONG.\n".data).bin.isSome ∧
        (respText "PONG.\n".data).err = none) ∨
      ((respText "PONG.\n".data).text = none ∧ (respText "PONG.\n".data).bin = none ∧
        (respText "PONG.\n".data).err.isSome)) ∧
    (statusByte (respText "PONG.\n".data) = some 1 ↔ (respText "PONG.\n".data).err = none) :=
  c8_response_shape (show genResponse "PING".data (init_state settingsNF []) [] =
    some (respText "PONG.\n".data, init_state settingsNF [], []) by decide)

/-- C9 counterexample: a store whose `size` (1) is at least the requested
count `n = 1` while its buffer holds fewer than `n` updates — the claim
says `GET 1 AS JSON` does not return an error response, but at `size = n`
the JSON variant's `size <= count` check fires and it DOES return the
`Requested too many` error. -/
theorem c9_counterexample :
    genResponse "GET 1 AS JSON".data stGap [] =
      some (respErr "Requested too many".data, stGap, []) ∧
    (lookupA stGap.store stGap.current_store_name).map (fun s => (s.size, s.v.length)) =
      some (1, 0) := by
  decide

/-- C9 witness: the panic/error split evaluated on the bootstrap-like store
of size 1 with an empty buffer and `n = 1`. -/
theorem c9_get_panics_witness :
    (natOfDigits ['1'] ≤ csGap.size → csGap.v.length < natOfDigits ['1'] →
      genResponse ("GET ".data ++ '1' :: []) stGap [] = none) ∧
    (natOfDigits ['1'] < csGap.size → csGap.v.length < natOfDigits ['1'] →
      genResponse ("GET ".data ++ ('1' :: []) ++ " AS JSON".data) stGap [] = none) ∧
    (csGap.size = natOfDigits ['1'] → csGap.size ≠ 0 →
      genResponse ("GET ".data ++ ('1' :: []) ++ " AS JSON".data) stGap [] =
        some (respErr "Requested too many".data, stGap, [])) :=
  c9_get_panics stGap [] csGap '1' [] (by decide) (by decide) (by decide) (by decide)
    (by decide)

/-- C10 witness: `CREATE foo` over the existing `foo` store. -/
theorem c10_create_overwrites_witness :
    genResponse ("CREATE ".data ++ "foo".data) stFooC1 [] =
      some (respText ("Created DB `".data ++ "foo".data ++ "`.\n".data),
        { stFooC1 with store := insertA stFooC1.store "foo".data
                                  (freshStore "foo".data stFooC1.settings.dtf_folder) },
        []) ∧
    lookupA (insertA stFooC1.store "foo".data
        (freshStore "foo".data stFooC1.settings.dtf_folder)) "foo".data =
      some (freshStore "foo".data stFooC1.settings.dtf_folder) :=
  c10_create_overwrites stFooC1 [] "foo".data ⟨"foo".data, "db".data, false, 0, []⟩
    (by decide) (by decide)
